import Mathlib

/-!
Formal model of the key-slot management core of the repository
(`key_slot_manager.py` and `slot_assignment_strategy.py`): a fixed table of
optional slot assignments, a ten-entry pool of sold vehicles awaiting
handover, license-plate normalization and duplicate prevention, price-tiered
slot selection with overflow to the highest free slot, and the sale /
handover / release lifecycle operations.

Timestamps (`assigned_at`, `sold_at`) are produced by the wall clock in the
source and play no role in any claim; they are omitted from the model.
Prices are modelled as rationals; vehicle metadata and buyer info as opaque
association lists.
-/

namespace KeyMgmt

/-- Opaque vehicle metadata (`vehicle_data` in the source). -/
abbrev VehicleData := List (String × String)

/-- Opaque buyer information (`buyer_info` in the source). -/
abbrev BuyerInfo := List (String × String)

/-- Model of `KeySlotManager._normalize_license_plate`: uppercase, then strip
spaces and hyphens.  Returned as a character list. -/
def normalizePlate (license_plate : String) : List Char :=
  (license_plate.toList.map Char.toUpper).filter (fun c => !(c == ' ' || c == '-'))

/-- Model of the dataclass `SlotAssignment` (minus the wall-clock
`assigned_at` field). -/
structure SlotAssignment where
  slot_number : Nat
  vehicle_id : String
  license_plate : String
  purchase_price : Rat
  vehicle_data : Option VehicleData
deriving DecidableEq

/-- Model of the dataclass `SoldVehicle` (minus the wall-clock `sold_at`
field). -/
structure SoldVehicle where
  sold_slot : String
  vehicle_id : String
  license_plate : String
  purchase_price : Rat
  original_slot : Nat
  sold_price : Option Rat
  buyer_info : Option BuyerInfo
deriving DecidableEq

/-- Model of `PriceBasedSlotStrategy.__init__`'s configuration fields. -/
structure PriceBasedSlotStrategy where
  high_price_threshold : Rat
  medium_price_threshold : Rat
  high_price_slots : Nat × Nat
  medium_price_slots : Nat × Nat
  low_price_slots : Nat × Nat
deriving DecidableEq

/-- The default configuration of `PriceBasedSlotStrategy` (its Python
default arguments). -/
def defaultPriceStrategy : PriceBasedSlotStrategy :=
  ⟨3000, 1500, (0, 50), (50, 100), (100, 199)⟩

/-- Model of `PriceBasedSlotStrategy.get_slot_range`. -/
def PriceBasedSlotStrategy.get_slot_range
    (s : PriceBasedSlotStrategy) (purchase_price : Rat) : Nat × Nat :=
  if s.high_price_threshold ≤ purchase_price then s.high_price_slots
  else if s.medium_price_threshold ≤ purchase_price then s.medium_price_slots
  else s.low_price_slots

/-- Model of `KeySlotManager`'s mutable state.  The Python dict
`slots` has keys `0 .. total_slots-1` in order, so it is modelled as a list
of length `total_slots`; the abstract strategy object is modelled by its
only method, a function from price to inclusive slot range. -/
structure KeySlotManager where
  total_slots : Nat
  assignment_strategy : Option (Rat → Nat × Nat)
  slots : List (Option SlotAssignment)
  sold_vehicles : List (Option SoldVehicle)

/-- `KeySlotManager.SOLD_VEHICLE_SLOTS`. -/
def SOLD_VEHICLE_SLOTS : Nat := 10

/-- Model of `KeySlotManager.__init__`: an empty manager. -/
def mkKeySlotManager (total_slots : Nat)
    (assignment_strategy : Option (Rat → Nat × Nat)) : KeySlotManager :=
  ⟨total_slots, assignment_strategy,
    List.replicate total_slots none,
    List.replicate SOLD_VEHICLE_SLOTS none⟩

/-- Whether a slot-table cell holds an assignment with the given normalized
plate (the loop-body test in `is_duplicate_license_plate` and friends). -/
def slotMatches (normalized : List Char) : Option SlotAssignment → Bool
  | some a => normalizePlate a.license_plate == normalized
  | none => false

/-- Whether a handover-pool cell holds a record with the given normalized
plate. -/
def soldMatches (normalized : List Char) : Option SoldVehicle → Bool
  | some s => normalizePlate s.license_plate == normalized
  | none => false

namespace KeySlotManager

/-- Model of `KeySlotManager.is_duplicate_license_plate`: scans the slot
table, then the sold-vehicle pool. -/
def is_duplicate_license_plate (m : KeySlotManager) (license_plate : String) : Bool :=
  let normalized := normalizePlate license_plate
  m.slots.any (slotMatches normalized) || m.sold_vehicles.any (soldMatches normalized)

/-- Model of `KeySlotManager.is_slot_available`: bounds check then emptiness
of the cell. -/
def is_slot_available (m : KeySlotManager) (slot_number : Nat) : Bool :=
  if slot_number < m.total_slots then (m.slots.getD slot_number none).isNone
  else false

/-- Model of `KeySlotManager.get_available_slot_in_range`: first free index
in `range(min_slot, min(max_slot+1, total_slots))`. -/
def get_available_slot_in_range (m : KeySlotManager) (min_slot max_slot : Nat) :
    Option Nat :=
  (List.range' min_slot (min (max_slot + 1) m.total_slots - min_slot)).find?
    m.is_slot_available

/-- Model of `KeySlotManager.get_highest_available_slot`: first free index
scanning `total_slots-1` down to `0`. -/
def get_highest_available_slot (m : KeySlotManager) : Option Nat :=
  (List.range m.total_slots).reverse.find? m.is_slot_available

/-- The successful write of `assign_vehicle_to_slot`: store a fresh
assignment at `slot_number`. -/
def placeVehicle (m : KeySlotManager) (slot_number : Nat)
    (vehicle_id license_plate : String) (purchase_price : Rat)
    (vehicle_data : Option VehicleData) : KeySlotManager :=
  ⟨m.total_slots, m.assignment_strategy,
    m.slots.set slot_number
      (some ⟨slot_number, vehicle_id, license_plate, purchase_price, vehicle_data⟩),
    m.sold_vehicles⟩

/-- Model of `KeySlotManager.assign_vehicle_to_slot`; `none` models the
`False` return (state untouched). -/
def assign_vehicle_to_slot (m : KeySlotManager) (slot_number : Nat)
    (vehicle_id license_plate : String) (purchase_price : Rat)
    (vehicle_data : Option VehicleData) (check_duplicate : Bool) :
    Option KeySlotManager :=
  if !m.is_slot_available slot_number then none
  else if check_duplicate && m.is_duplicate_license_plate license_plate then none
  else some (m.placeVehicle slot_number vehicle_id license_plate purchase_price vehicle_data)

/-- The fallback loop of `assign_vehicle` when no strategy is configured:
`for slot in range(total_slots): if available: if assign_to_slot: return slot`. -/
def firstFitLoop (m : KeySlotManager) (vehicle_id license_plate : String)
    (purchase_price : Rat) (vehicle_data : Option VehicleData) :
    List Nat → Option Nat × KeySlotManager
  | [] => (none, m)
  | slot :: rest =>
    if m.is_slot_available slot then
      match m.assign_vehicle_to_slot slot vehicle_id license_plate purchase_price
          vehicle_data false with
      | some m2 => (some slot, m2)
      | none => firstFitLoop m vehicle_id license_plate purchase_price vehicle_data rest
    else firstFitLoop m vehicle_id license_plate purchase_price vehicle_data rest

/-- The overflow tail of `assign_vehicle`: place at the highest available
slot, else reject. -/
def assign_overflow (m : KeySlotManager) (vehicle_id license_plate : String)
    (purchase_price : Rat) (vehicle_data : Option VehicleData) :
    Option Nat × KeySlotManager :=
  match m.get_highest_available_slot with
  | some highest_slot =>
    match m.assign_vehicle_to_slot highest_slot vehicle_id license_plate
        purchase_price vehicle_data false with
    | some m2 => (some highest_slot, m2)
    | none => (none, m)
  | none => (none, m)

/-- Model of `KeySlotManager.assign_vehicle`.  Returns the Python return
value paired with the post-state. -/
def assign_vehicle (m : KeySlotManager) (vehicle_id license_plate : String)
    (purchase_price : Rat) (vehicle_data : Option VehicleData) :
    Option Nat × KeySlotManager :=
  if m.is_duplicate_license_plate license_plate then (none, m)
  else
    match m.assignment_strategy with
    | none =>
      m.firstFitLoop vehicle_id license_plate purchase_price vehicle_data
        (List.range m.total_slots)
    | some strategy =>
      let r := strategy purchase_price
      match m.get_available_slot_in_range r.1 r.2 with
      | some available_slot =>
        match m.assign_vehicle_to_slot available_slot vehicle_id license_plate
            purchase_price vehicle_data false with
        | some m2 => (some available_slot, m2)
        | none => m.assign_overflow vehicle_id license_plate purchase_price vehicle_data
      | none => m.assign_overflow vehicle_id license_plate purchase_price vehicle_data

/-- Model of `KeySlotManager.add_vehicle_manually`. -/
def add_vehicle_manually (m : KeySlotManager) (license_plate : String)
    (purchase_price : Rat) (vehicle_id : Option String)
    (preferred_slot : Option Nat) (vehicle_data : Option VehicleData) :
    Option Nat × KeySlotManager :=
  if m.is_duplicate_license_plate license_plate then (none, m)
  else
    let vid := match vehicle_id with
      | none => "MANUAL-" ++ license_plate
      | some v => v
    match preferred_slot with
    | some ps =>
      if m.is_slot_available ps then
        match m.assign_vehicle_to_slot ps vid license_plate purchase_price
            vehicle_data false with
        | some m2 => (some ps, m2)
        | none => m.assign_vehicle vid license_plate purchase_price vehicle_data
      else m.assign_vehicle vid license_plate purchase_price vehicle_data
    | none => m.assign_vehicle vid license_plate purchase_price vehicle_data

/-- The scan of `get_vehicle_by_license_plate`: the first assignment in the
slot table whose normalized plate matches. -/
def findAssignment (normalized : List Char) :
    List (Option SlotAssignment) → Option SlotAssignment
  | [] => none
  | some a :: rest =>
    if normalizePlate a.license_plate == normalized then some a
    else findAssignment normalized rest
  | none :: rest => findAssignment normalized rest

/-- Model of `KeySlotManager.get_vehicle_by_license_plate`. -/
def get_vehicle_by_license_plate (m : KeySlotManager) (license_plate : String) :
    Option SlotAssignment :=
  findAssignment (normalizePlate license_plate) m.slots

/-- Index of the first cell satisfying `p` (the `enumerate` loops of
`mark_vehicle_as_sold` and `complete_vehicle_handover`). -/
def firstIdxWhere {α : Type} (p : α → Bool) : List α → Option Nat
  | [] => none
  | x :: rest => if p x then some 0 else (firstIdxWhere p rest).map (fun i => i + 1)

/-- Model of `KeySlotManager.mark_vehicle_as_sold`: look the plate up in the
slot table, find the first free pool index, insert the sold record there and
clear the original slot in the same step. -/
def mark_vehicle_as_sold (m : KeySlotManager) (license_plate : String)
    (sold_price : Option Rat) (buyer_info : Option BuyerInfo) :
    Bool × KeySlotManager :=
  match m.get_vehicle_by_license_plate license_plate with
  | none => (false, m)
  | some assignment =>
    match firstIdxWhere Option.isNone m.sold_vehicles with
    | none => (false, m)
    | some sold_slot_index =>
      let sold_vehicle : SoldVehicle :=
        ⟨"v" ++ toString (sold_slot_index + 1), assignment.vehicle_id,
          assignment.license_plate, assignment.purchase_price,
          assignment.slot_number, sold_price, buyer_info⟩
      (true,
        ⟨m.total_slots, m.assignment_strategy,
          m.slots.set assignment.slot_number none,
          m.sold_vehicles.set sold_slot_index (some sold_vehicle)⟩)

/-- Model of `KeySlotManager.complete_vehicle_handover`: clear the first
pool cell holding a matching record. -/
def complete_vehicle_handover (m : KeySlotManager) (license_plate : String) :
    Bool × KeySlotManager :=
  let normalized := normalizePlate license_plate
  match firstIdxWhere (soldMatches normalized) m.sold_vehicles with
  | some idx =>
    (true, ⟨m.total_slots, m.assignment_strategy, m.slots,
      m.sold_vehicles.set idx none⟩)
  | none => (false, m)

/-- Model of `KeySlotManager.get_sold_vehicles` (`list_pending`). -/
def get_sold_vehicles (m : KeySlotManager) : List SoldVehicle :=
  m.sold_vehicles.filterMap (fun x => x)

/-- Model of `KeySlotManager.release_slot`. -/
def release_slot (m : KeySlotManager) (slot_number : Nat) : Bool × KeySlotManager :=
  if slot_number < m.total_slots then
    match m.slots.getD slot_number none with
    | none => (false, m)
    | some _ =>
      (true, ⟨m.total_slots, m.assignment_strategy,
        m.slots.set slot_number none, m.sold_vehicles⟩)
  else (false, m)

/-- Model of `KeySlotManager.release_by_license_plate`. -/
def release_by_license_plate (m : KeySlotManager) (license_plate : String) :
    Bool × KeySlotManager :=
  match m.get_vehicle_by_license_plate license_plate with
  | none => (false, m)
  | some assignment => m.release_slot assignment.slot_number

/-- Model of `KeySlotManager.get_available_slots_count`. -/
def get_available_slots_count (m : KeySlotManager) : Nat :=
  m.slots.countP (fun a => a.isNone)

/-- Model of `KeySlotManager.get_sold_vehicles_count`. -/
def get_sold_vehicles_count (m : KeySlotManager) : Nat :=
  m.sold_vehicles.countP (fun s => s.isSome)


/-! ### Invariant definitions, reachability, and concrete states -/

/-- Structural well-formedness: the two arrays have their declared sizes
(`__init__` establishes this, every operation preserves list lengths). -/
def WF (m : KeySlotManager) : Prop :=
  m.slots.length = m.total_slots ∧ m.sold_vehicles.length = SOLD_VEHICLE_SLOTS

/-- Every occupied table cell records its own index as `slot_number`. -/
def slotCoherent (m : KeySlotManager) : Prop :=
  ∀ i, i < m.slots.length →
    Option.all (fun a => a.slot_number == i) (m.slots.getD i none) = true

/-- Number of entries, across the slot table and the handover pool
together, carrying a given normalized plate. -/
def plateCount (m : KeySlotManager) (n : List Char) : Nat :=
  m.slots.countP (slotMatches n) + m.sold_vehicles.countP (soldMatches n)

/-- The system-wide duplicate-prevention invariant: at most one entry per
normalized license plate across slot table and handover pool. -/
def PlateAtMostOne (m : KeySlotManager) : Prop :=
  ∀ n, plateCount m n ≤ 1

/-- The inductive invariant of the manager. -/
def Inv (m : KeySlotManager) : Prop :=
  WF m ∧ slotCoherent m ∧ PlateAtMostOne m

instance decidableWF (m : KeySlotManager) : Decidable (WF m) :=
  inferInstanceAs (Decidable (m.slots.length = m.total_slots ∧
    m.sold_vehicles.length = SOLD_VEHICLE_SLOTS))

instance decidableSlotCoherent (m : KeySlotManager) : Decidable (slotCoherent m) :=
  inferInstanceAs (Decidable (∀ i, i < m.slots.length →
    Option.all (fun a => a.slot_number == i) (m.slots.getD i none) = true))

/-- The normalized plates of all entries in the system, table first then
pool, in scan order. -/
def systemPlates (m : KeySlotManager) : List (List Char) :=
  ((m.slots.filterMap (fun x => x)).map (fun a => normalizePlate a.license_plate)) ++
    ((m.sold_vehicles.filterMap (fun x => x)).map (fun s => normalizePlate s.license_plate))

/-- The slot `assign_vehicle` will pick, read off the decision structure of
the source: ascending first fit without a strategy; otherwise first fit in
the strategy's range with fallback to the highest free slot. -/
def selectedSlot (m : KeySlotManager) (purchase_price : Rat) : Option Nat :=
  match m.assignment_strategy with
  | none => (List.range m.total_slots).find? m.is_slot_available
  | some strategy =>
    match m.get_available_slot_in_range (strategy purchase_price).1
        (strategy purchase_price).2 with
    | some s => some s
    | none => m.get_highest_available_slot

/-- States reachable from an empty manager by the spec-listed operations. -/
inductive Reachable : KeySlotManager → Prop
  | init (total_slots : Nat) (strategy : Option (Rat → Nat × Nat)) :
      Reachable (mkKeySlotManager total_slots strategy)
  | assign (m : KeySlotManager) (v lp : String) (p : Rat) (d : Option VehicleData) :
      Reachable m → Reachable (m.assign_vehicle v lp p d).2
  | addManual (m : KeySlotManager) (lp : String) (p : Rat) (vid : Option String)
      (ps : Option Nat) (d : Option VehicleData) :
      Reachable m → Reachable (m.add_vehicle_manually lp p vid ps d).2
  | markSold (m : KeySlotManager) (lp : String) (sp : Option Rat)
      (bi : Option BuyerInfo) :
      Reachable m → Reachable (m.mark_vehicle_as_sold lp sp bi).2
  | complete (m : KeySlotManager) (lp : String) :
      Reachable m → Reachable (m.complete_vehicle_handover lp).2
  | releaseSlot (m : KeySlotManager) (i : Nat) :
      Reachable m → Reachable (m.release_slot i).2
  | releaseByPlate (m : KeySlotManager) (lp : String) :
      Reachable m → Reachable (m.release_by_license_plate lp).2

/-- Runs consisting only of `assign_vehicle` calls, starting anywhere. -/
inductive AssignReach : KeySlotManager → KeySlotManager → Prop
  | refl (m : KeySlotManager) : AssignReach m m
  | step (m₁ m₂ : KeySlotManager) (v lp : String) (p : Rat)
      (d : Option VehicleData) :
      AssignReach m₁ m₂ → AssignReach m₁ (m₂.assign_vehicle v lp p d).2

/-- Run `mark_vehicle_as_sold` once per plate, in order, collecting the
returned booleans. -/
def markSoldSeq : KeySlotManager → List String → List Bool × KeySlotManager
  | m, [] => ([], m)
  | m, q :: rest =>
    let r := m.mark_vehicle_as_sold q none none
    let t := markSoldSeq r.2 rest
    (r.1 :: t.1, t.2)

/-- A one-slot manager whose only slot is occupied. -/
def wmFull : KeySlotManager :=
  ⟨1, none, [some ⟨0, "V0", "K0", 0, none⟩], List.replicate 10 none⟩

/-- A manager with an empty table and one pending handover record. -/
def wmSold : KeySlotManager :=
  ⟨1, none, [none], some ⟨"v1", "V0", "K0", 0, 0, none, none⟩ :: List.replicate 9 none⟩

/-- A two-slot manager whose strategy range `[0, 0]` is fully occupied while
slot 1 is free. -/
def wmC6 : KeySlotManager :=
  ⟨2, some (fun _ => (0, 0)), [some ⟨0, "V0", "K0", 0, none⟩, none],
    List.replicate 10 none⟩

/-- A small reachable state with plate `K7` occupying slot 0. -/
def wmC4 : KeySlotManager :=
  ((mkKeySlotManager 2 none).assign_vehicle "V1" "K7" 5 none).2

/-- An eleven-slot manager with eleven distinct plates and an empty pool. -/
def wmC8 : KeySlotManager :=
  ⟨11, none,
    [some ⟨0, "V0", "P0", 0, none⟩, some ⟨1, "V1", "P1", 0, none⟩,
     some ⟨2, "V2", "P2", 0, none⟩, some ⟨3, "V3", "P3", 0, none⟩,
     some ⟨4, "V4", "P4", 0, none⟩, some ⟨5, "V5", "P5", 0, none⟩,
     some ⟨6, "V6", "P6", 0, none⟩, some ⟨7, "V7", "P7", 0, none⟩,
     some ⟨8, "V8", "P8", 0, none⟩, some ⟨9, "V9", "P9", 0, none⟩,
     some ⟨10, "V10", "PA", 0, none⟩],
    List.replicate 10 none⟩

/-- The eleven plates of `wmC8`. -/
def wmC8Plates : List String :=
  ["P0", "P1", "P2", "P3", "P4", "P5", "P6", "P7", "P8", "P9", "PA"]

end KeySlotManager

/-! ### Generic list lemmas used throughout -/

/-- Membership from an indexed lookup. -/
theorem mem_of_getElem?_eq {α : Type} {l : List α} {i : Nat} {x : α}
    (h : l[i]? = some x) : x ∈ l := by
  obtain ⟨hi, rfl⟩ := List.getElem?_eq_some.mp h
  exact List.getElem_mem hi

theorem if_eq_toNat (b : Bool) : (if b = true then 1 else 0) = b.toNat := by
  cases b <;> rfl

/-- Counting after an in-bounds `set`: the old cell's contribution is
exchanged for the new value's. -/
theorem countP_set_exchange {α : Type} (p : α → Bool) :
    ∀ (l : List α) (i : Nat) (x y : α), l[i]? = some y →
      (l.set i x).countP p + (p y).toNat = l.countP p + (p x).toNat
  | [], i, x, y, h => by simp at h
  | a :: l, 0, x, y, h => by
    simp only [List.getElem?_cons_zero, Option.some_inj] at h
    subst h
    simp only [List.set_cons_zero, List.countP_cons, if_eq_toNat]
    omega
  | a :: l, i + 1, x, y, h => by
    simp only [List.getElem?_cons_succ] at h
    have ih := countP_set_exchange p l i x y h
    simp only [List.set_cons_succ, List.countP_cons, if_eq_toNat]
    omega

/-- Two distinct positions both satisfying `p` force a count of at least
two. -/
theorem two_le_countP {α : Type} (p : α → Bool) (l : List α) (i j : Nat)
    (x y : α) (hij : i < j) (hx : l[i]? = some x) (hy : l[j]? = some y)
    (px : p x = true) (py : p y = true) : 2 ≤ l.countP p := by
  have hsplit : l.take (i + 1) ++ l.drop (i + 1) = l := List.take_append_drop _ _
  have h1 : 0 < (l.take (i + 1)).countP p := by
    refine List.countP_pos_iff.mpr ⟨x, ?_, px⟩
    exact mem_of_getElem?_eq (by rw [List.getElem?_take_of_lt (Nat.lt_succ_self i)]; exact hx)
  have h2 : 0 < (l.drop (i + 1)).countP p := by
    refine List.countP_pos_iff.mpr ⟨y, ?_, py⟩
    have hdropj : (l.drop (i + 1))[j - (i + 1)]? = some y := by
      rw [List.getElem?_drop]
      have harith : i + 1 + (j - (i + 1)) = j := by omega
      rw [harith]
      exact hy
    exact mem_of_getElem?_eq hdropj
  calc 2 ≤ (l.take (i + 1)).countP p + (l.drop (i + 1)).countP p := by omega
    _ = l.countP p := by rw [← List.countP_append, hsplit]

/-- A positive count yields a witness position. -/
theorem countP_pos_of_getElem? {α : Type} {p : α → Bool} {l : List α} {i : Nat}
    {x : α} (h : l[i]? = some x) (hp : p x = true) : 0 < l.countP p :=
  List.countP_pos_iff.mpr ⟨x, mem_of_getElem?_eq h, hp⟩

/-! ### Scanning lemmas: `find?` over ascending and descending ranges -/

/-- What a successful ascending scan over `range' a n` guarantees: the hit
satisfies the predicate, lies in the scanned window, and every earlier index
fails. -/
theorem find?_range'_some {p : Nat → Bool} :
    ∀ {n a s : Nat}, (List.range' a n).find? p = some s →
      p s = true ∧ a ≤ s ∧ s < a + n ∧ ∀ j, a ≤ j → j < s → p j = false := by
  intro n
  induction n with
  | zero => intro a s h; simp [List.range'] at h
  | succ n ih =>
    intro a s h
    rw [List.range'_succ, List.find?_cons] at h
    cases hpa : p a with
    | true =>
      rw [hpa] at h
      simp only [Option.some_inj] at h
      subst h
      exact ⟨hpa, Nat.le_refl a, by omega, fun j h1 h2 => absurd (Nat.lt_of_le_of_lt h1 h2) (Nat.lt_irrefl a)⟩
    | false =>
      rw [hpa] at h
      obtain ⟨h1, h2, h3, h4⟩ := ih h
      refine ⟨h1, by omega, by omega, fun j hj1 hj2 => ?_⟩
      rcases Nat.eq_or_lt_of_le hj1 with rfl | hlt
      · exact hpa
      · exact h4 j hlt hj2

/-- A failed ascending scan means every index in the window fails. -/
theorem find?_range'_none {p : Nat → Bool} {n a : Nat}
    (h : (List.range' a n).find? p = none) :
    ∀ j, a ≤ j → j < a + n → p j = false := by
  intro j h1 h2
  have := List.find?_eq_none.mp h j (List.mem_range'_1.mpr ⟨h1, h2⟩)
  simpa using this

/-- What a successful descending scan over `range n` guarantees: the hit
satisfies the predicate, is below `n`, and every higher index below `n`
fails. -/
theorem find?_revRange_some {p : Nat → Bool} :
    ∀ {n s : Nat}, ((List.range n).reverse.find? p = some s) →
      p s = true ∧ s < n ∧ ∀ j, s < j → j < n → p j = false := by
  intro n
  induction n with
  | zero => intro s h; simp at h
  | succ n ih =>
    intro s h
    rw [List.range_succ, List.reverse_append] at h
    simp only [List.reverse_cons, List.reverse_nil, List.nil_append,
      List.singleton_append, List.find?_cons] at h
    cases hpn : p n with
    | true =>
      rw [hpn] at h
      simp only [Option.some_inj] at h
      subst h
      exact ⟨hpn, Nat.lt_succ_self n, fun j h1 h2 => by omega⟩
    | false =>
      rw [hpn] at h
      obtain ⟨h1, h2, h3⟩ := ih h
      refine ⟨h1, by omega, fun j hj1 hj2 => ?_⟩
      rcases Nat.lt_succ_iff_lt_or_eq.mp hj2 with hlt | rfl
      · exact h3 j hj1 hlt
      · exact hpn

/-- A failed descending scan means every index below `n` fails. -/
theorem find?_revRange_none {p : Nat → Bool} {n : Nat}
    (h : (List.range n).reverse.find? p = none) : ∀ j, j < n → p j = false := by
  intro j hj
  have := List.find?_eq_none.mp h j (List.mem_reverse.mpr (List.mem_range.mpr hj))
  simpa using this

/-! ### Lemmas about `firstIdxWhere` (the `enumerate` scanning loops) -/

namespace KeySlotManager

/-- A successful index scan hits a satisfying cell, and every earlier cell
fails. -/
theorem firstIdxWhere_some {α : Type} {p : α → Bool} :
    ∀ {l : List α} {i : Nat}, firstIdxWhere p l = some i →
      ∃ x, l[i]? = some x ∧ p x = true ∧
        ∀ j, j < i → ∀ y, l[j]? = some y → p y = false := by
  intro l
  induction l with
  | nil => intro i h; simp [firstIdxWhere] at h
  | cons a l ih =>
    intro i h
    rw [firstIdxWhere] at h
    by_cases hpa : p a = true
    · rw [if_pos hpa] at h
      simp only [Option.some_inj] at h
      subst h
      exact ⟨a, by simp, hpa, fun j hj => by omega⟩
    · rw [if_neg hpa] at h
      cases hrec : firstIdxWhere p l with
      | none => rw [hrec] at h; simp at h
      | some i' =>
        rw [hrec] at h
        simp only [Option.map_some', Option.some_inj] at h
        subst h
        obtain ⟨x, hx1, hx2, hx3⟩ := ih hrec
        refine ⟨x, by simpa using hx1, hx2, fun j hj y hy => ?_⟩
        cases j with
        | zero =>
          simp only [List.getElem?_cons_zero, Option.some_inj] at hy
          subst hy
          exact Bool.eq_false_iff.mpr hpa
        | succ j' =>
          simp only [List.getElem?_cons_succ] at hy
          exact hx3 j' (by omega) y hy

/-- A failed index scan means every cell fails. -/
theorem firstIdxWhere_none {α : Type} {p : α → Bool} :
    ∀ {l : List α}, firstIdxWhere p l = none → ∀ x ∈ l, p x = false := by
  intro l
  induction l with
  | nil => intro _ x hx; cases hx
  | cons a l ih =>
    intro h x hx
    rw [firstIdxWhere] at h
    by_cases hpa : p a = true
    · rw [if_pos hpa] at h; cases h
    · rw [if_neg hpa] at h
      cases hrec : firstIdxWhere p l with
      | some i => rw [hrec] at h; simp at h
      | none =>
        rcases List.mem_cons.mp hx with rfl | hmem
        · exact Bool.eq_false_iff.mpr hpa
        · exact ih hrec x hmem

/-- Conversely, a satisfying cell makes the scan succeed. -/
theorem firstIdxWhere_isSome {α : Type} {p : α → Bool} {l : List α} {x : α}
    (hx : x ∈ l) (hpx : p x = true) : (firstIdxWhere p l).isSome = true := by
  cases h : firstIdxWhere p l with
  | none => rw [firstIdxWhere_none h x hx] at hpx; cases hpx
  | some i => rfl

/-! ### Lemmas about `findAssignment` (the slot-table lookup loop) -/

/-- A successful lookup returns a matching assignment that is in the
table. -/
theorem findAssignment_some {n : List Char} :
    ∀ {l : List (Option SlotAssignment)} {a : SlotAssignment},
      findAssignment n l = some a →
        some a ∈ l ∧ slotMatches n (some a) = true := by
  intro l
  induction l with
  | nil => intro a h; simp [findAssignment] at h
  | cons o l ih =>
    intro a h
    match o with
    | none =>
      rw [findAssignment] at h
      obtain ⟨h1, h2⟩ := ih h
      exact ⟨List.mem_cons_of_mem _ h1, h2⟩
    | some b =>
      rw [findAssignment] at h
      by_cases hb : (normalizePlate b.license_plate == n) = true
      · rw [if_pos hb] at h
        simp only [Option.some_inj] at h
        subst h
        exact ⟨List.mem_cons_self _ _, by simpa [slotMatches] using hb⟩
      · rw [if_neg hb] at h
        obtain ⟨h1, h2⟩ := ih h
        exact ⟨List.mem_cons_of_mem _ h1, h2⟩

/-- A failed lookup means no cell matches. -/
theorem findAssignment_none {n : List Char} :
    ∀ {l : List (Option SlotAssignment)}, findAssignment n l = none →
      ∀ o ∈ l, slotMatches n o = false := by
  intro l
  induction l with
  | nil => intro _ o ho; cases ho
  | cons o' l ih =>
    intro h o ho
    match o' with
    | none =>
      rw [findAssignment] at h
      rcases List.mem_cons.mp ho with rfl | hmem
      · rfl
      · exact ih h o hmem
    | some b =>
      rw [findAssignment] at h
      by_cases hb : (normalizePlate b.license_plate == n) = true
      · rw [if_pos hb] at h; cases h
      · rw [if_neg hb] at h
        rcases List.mem_cons.mp ho with rfl | hmem
        · simpa [slotMatches] using hb
        · exact ih h o hmem

/-- Conversely, a matching cell makes the lookup succeed. -/
theorem findAssignment_isSome {n : List Char} {l : List (Option SlotAssignment)}
    {o : Option SlotAssignment} (ho : o ∈ l) (hm : slotMatches n o = true) :
    (findAssignment n l).isSome = true := by
  cases h : findAssignment n l with
  | none => rw [findAssignment_none h o ho] at hm; cases hm
  | some a => rfl

/-! ### Well-formedness and the system-wide plate invariant -/

theorem count_map_filterMap_slots (n : List Char) :
    ∀ (l : List (Option SlotAssignment)),
      ((l.filterMap (fun x => x)).map
        (fun a => normalizePlate a.license_plate)).count n = l.countP (slotMatches n)
  | [] => by simp
  | none :: l => by
    rw [@List.filterMap_cons_none _ _ (fun x => x) none l rfl, List.countP_cons]
    simp [count_map_filterMap_slots n l, slotMatches]
  | some a :: l => by
    rw [@List.filterMap_cons_some _ _ (fun x => x) (some a) l a rfl,
      List.map_cons, List.count_cons, List.countP_cons]
    simp only [count_map_filterMap_slots n l, slotMatches]

theorem count_map_filterMap_sold (n : List Char) :
    ∀ (l : List (Option SoldVehicle)),
      ((l.filterMap (fun x => x)).map
        (fun s => normalizePlate s.license_plate)).count n = l.countP (soldMatches n)
  | [] => by simp
  | none :: l => by
    rw [@List.filterMap_cons_none _ _ (fun x => x) none l rfl, List.countP_cons]
    simp [count_map_filterMap_sold n l, soldMatches]
  | some s :: l => by
    rw [@List.filterMap_cons_some _ _ (fun x => x) (some s) l s rfl,
      List.map_cons, List.count_cons, List.countP_cons]
    simp only [count_map_filterMap_sold n l, soldMatches]

theorem count_le_one_of_nodup {α : Type} [BEq α] [LawfulBEq α] :
    ∀ {l : List α}, l.Nodup → ∀ (a : α), l.count a ≤ 1 := by
  intro l
  induction l with
  | nil => intro _ a; simp
  | cons x l ih =>
    intro h a
    obtain ⟨hx, hl⟩ := List.nodup_cons.mp h
    rw [List.count_cons]
    by_cases hax : x = a
    · subst hax
      rw [List.count_eq_zero_of_not_mem hx]
      simp
    · have : (x == a) = false := beq_eq_false_iff_ne.mpr hax
      rw [this]
      simpa using ih hl a

/-- Distinctness of the listed system plates implies the counting form of
the invariant.  (Used to discharge `PlateAtMostOne` on concrete states,
where the list form is decidable.) -/
theorem plateAtMostOne_of_nodup {m : KeySlotManager}
    (h : (systemPlates m).Nodup) : PlateAtMostOne m := by
  intro n
  have hc := count_le_one_of_nodup h n
  rw [systemPlates, List.count_append, count_map_filterMap_slots,
    count_map_filterMap_sold] at hc
  exact hc

/-- Indexing form of `slotCoherent`. -/
theorem slotCoherent_getElem {m : KeySlotManager} (h : slotCoherent m)
    {i : Nat} {a : SlotAssignment} (hi : m.slots[i]? = some (some a)) :
    a.slot_number = i := by
  obtain ⟨hlt, _⟩ := List.getElem?_eq_some.mp hi
  have := h i hlt
  rw [List.getD_eq_getElem?_getD, hi] at this
  simpa [Option.all] using this

/-! ### Characterization of the assignment path -/

theorem is_slot_available_iff {m : KeySlotManager} {s : Nat} :
    m.is_slot_available s = true ↔
      s < m.total_slots ∧ m.slots.getD s none = none := by
  rw [is_slot_available]
  by_cases h : s < m.total_slots
  · rw [if_pos h]
    simp [h, Option.isNone_iff_eq_none]
  · rw [if_neg h]
    simp [h]

/-- Under well-formedness, an available slot is an in-bounds empty cell. -/
theorem avail_getElem? {m : KeySlotManager} {s : Nat} (hwf : WF m)
    (h : m.is_slot_available s = true) : m.slots[s]? = some none := by
  obtain ⟨h1, h2⟩ := is_slot_available_iff.mp h
  have hs : s < m.slots.length := by rw [hwf.1]; exact h1
  rw [List.getD_eq_getElem?_getD, List.getElem?_eq_getElem hs] at h2
  simp only [Option.getD_some] at h2
  rw [List.getElem?_eq_getElem hs, h2]

theorem avail_lt_total {m : KeySlotManager} {s : Nat}
    (h : m.is_slot_available s = true) : s < m.total_slots :=
  (is_slot_available_iff.mp h).1

/-- `assign_vehicle_to_slot` with the duplicate check disabled succeeds on
any available slot and performs exactly the write `placeVehicle`. -/
theorem assign_to_slot_of_avail {m : KeySlotManager} {s : Nat}
    (v lp : String) (p : Rat) (d : Option VehicleData)
    (h : m.is_slot_available s = true) :
    m.assign_vehicle_to_slot s v lp p d false = some (m.placeVehicle s v lp p d) := by
  rw [assign_vehicle_to_slot, h]
  simp

/-- What a hit of the in-range scan guarantees. -/
theorem in_range_some {m : KeySlotManager} {a b s : Nat}
    (h : m.get_available_slot_in_range a b = some s) :
    m.is_slot_available s = true ∧ a ≤ s ∧ s ≤ b ∧ s < m.total_slots ∧
      ∀ j, a ≤ j → j < s → m.is_slot_available j = false := by
  rw [get_available_slot_in_range] at h
  obtain ⟨h1, h2, h3, h4⟩ := find?_range'_some h
  refine ⟨h1, h2, by omega, by omega, h4⟩

/-- What a miss of the in-range scan guarantees. -/
theorem in_range_none {m : KeySlotManager} {a b : Nat}
    (h : m.get_available_slot_in_range a b = none) :
    ∀ j, a ≤ j → j ≤ b → j < m.total_slots → m.is_slot_available j = false := by
  rw [get_available_slot_in_range] at h
  intro j h1 h2 h3
  exact find?_range'_none h j h1 (by omega)

/-- What a hit of the descending scan guarantees. -/
theorem highest_some {m : KeySlotManager} {s : Nat}
    (h : m.get_highest_available_slot = some s) :
    m.is_slot_available s = true ∧ s < m.total_slots ∧
      ∀ j, s < j → j < m.total_slots → m.is_slot_available j = false := by
  rw [get_highest_available_slot] at h
  exact find?_revRange_some h

/-- What a miss of the descending scan guarantees. -/
theorem highest_none {m : KeySlotManager}
    (h : m.get_highest_available_slot = none) :
    ∀ j, j < m.total_slots → m.is_slot_available j = false := by
  rw [get_highest_available_slot] at h
  exact find?_revRange_none h

/-- The slot selected by `selectedSlot` is always available. -/
theorem selectedSlot_avail {m : KeySlotManager} {p : Rat} {s : Nat}
    (h : m.selectedSlot p = some s) : m.is_slot_available s = true := by
  rw [selectedSlot] at h
  cases hstrat : m.assignment_strategy with
  | none =>
    simp only [hstrat] at h
    exact List.find?_some h
  | some strategy =>
    simp only [hstrat] at h
    cases hr : m.get_available_slot_in_range (strategy p).1 (strategy p).2 with
    | some s' =>
      simp only [hr, Option.some_inj] at h
      subst h
      exact (in_range_some hr).1
    | none =>
      simp only [hr] at h
      exact (highest_some h).1

/-- The no-strategy loop of `assign_vehicle` is first fit over the scanned
index list. -/
theorem firstFitLoop_eq (m : KeySlotManager) (v lp : String) (p : Rat)
    (d : Option VehicleData) :
    ∀ (l : List Nat),
      m.firstFitLoop v lp p d l =
        match l.find? m.is_slot_available with
        | some s => (some s, m.placeVehicle s v lp p d)
        | none => (none, m)
  | [] => by rw [firstFitLoop]; simp
  | slot :: rest => by
    rw [firstFitLoop, List.find?_cons]
    cases hav : m.is_slot_available slot with
    | true =>
      rw [if_pos rfl, assign_to_slot_of_avail v lp p d hav]
    | false =>
      rw [if_neg (by simp)]
      exact firstFitLoop_eq m v lp p d rest

/-- Master characterization of `assign_vehicle`: reject duplicates, else
write the selected slot, else reject leaving the state intact. -/
theorem assign_vehicle_eq (m : KeySlotManager) (v lp : String) (p : Rat)
    (d : Option VehicleData) :
    m.assign_vehicle v lp p d =
      if m.is_duplicate_license_plate lp then (none, m)
      else
        match m.selectedSlot p with
        | some s => (some s, m.placeVehicle s v lp p d)
        | none => (none, m) := by
  rw [assign_vehicle, selectedSlot]
  by_cases hdup : m.is_duplicate_license_plate lp = true
  · rw [if_pos hdup, if_pos hdup]
  · rw [if_neg hdup, if_neg hdup]
    cases hstrat : m.assignment_strategy with
    | none =>
      simp only [hstrat]
      exact firstFitLoop_eq m v lp p d (List.range m.total_slots)
    | some strategy =>
      simp only [hstrat]
      cases hr : m.get_available_slot_in_range (strategy p).1 (strategy p).2 with
      | some s =>
        simp only [hr, assign_to_slot_of_avail v lp p d (in_range_some hr).1]
      | none =>
        simp only [hr, assign_overflow]
        cases hh : m.get_highest_available_slot with
        | some s =>
          simp only [hh, assign_to_slot_of_avail v lp p d (highest_some hh).1]
        | none => simp only [hh]

/-! ### Invariant preservation -/

theorem slotMatches_none (n : List Char) : slotMatches n none = false := rfl

theorem slotMatches_some (n : List Char) (a : SlotAssignment) :
    slotMatches n (some a) = (normalizePlate a.license_plate == n) := rfl

theorem soldMatches_none (n : List Char) : soldMatches n none = false := rfl

theorem soldMatches_some (n : List Char) (s : SoldVehicle) :
    soldMatches n (some s) = (normalizePlate s.license_plate == n) := rfl

theorem getD_eq_of_getElem? {α : Type} {l : List α} {i : Nat} {x d : α}
    (h : l[i]? = some x) : l.getD i d = x := by
  rw [List.getD_eq_getElem?_getD, h]
  rfl

/-- A plate that is not a duplicate has count zero in both tables. -/
theorem dup_false_counts {m : KeySlotManager} {lp : String}
    (h : m.is_duplicate_license_plate lp = false) :
    m.slots.countP (slotMatches (normalizePlate lp)) = 0 ∧
      m.sold_vehicles.countP (soldMatches (normalizePlate lp)) = 0 := by
  rw [is_duplicate_license_plate] at h
  simp only [Bool.or_eq_false_iff, List.any_eq_false] at h
  exact ⟨List.countP_eq_zero.mpr (fun o ho => by simp [h.1 o ho]),
    List.countP_eq_zero.mpr (fun o ho => by simp [h.2 o ho])⟩

/-- A duplicate plate has a positive count somewhere. -/
theorem dup_true_counts {m : KeySlotManager} {lp : String}
    (h : m.is_duplicate_license_plate lp = true) :
    0 < m.slots.countP (slotMatches (normalizePlate lp)) +
      m.sold_vehicles.countP (soldMatches (normalizePlate lp)) := by
  rw [is_duplicate_license_plate] at h
  rcases Bool.or_eq_true_iff.mp h with h1 | h1 <;>
    obtain ⟨o, ho, hpo⟩ := List.any_eq_true.mp h1
  · have := List.countP_pos_iff.mpr ⟨o, ho, hpo⟩
    omega
  · have := List.countP_pos_iff.mpr ⟨o, ho, hpo⟩
    omega

/-- How `placeVehicle` changes the per-plate count. -/
theorem plateCount_place {m : KeySlotManager} {s : Nat} (hwf : WF m)
    (hav : m.is_slot_available s = true) (v lp : String) (p : Rat)
    (d : Option VehicleData) (n : List Char) :
    plateCount (m.placeVehicle s v lp p d) n =
      plateCount m n + (normalizePlate lp == n).toNat := by
  have hs := avail_getElem? hwf hav
  have hx := countP_set_exchange (slotMatches n) m.slots s
    (some ⟨s, v, lp, p, d⟩) none hs
  rw [plateCount, plateCount, placeVehicle]
  dsimp only
  simp only [slotMatches_none, slotMatches_some, Bool.toNat_false] at hx
  omega

/-- `placeVehicle` on a fresh plate preserves the invariant. -/
theorem inv_place {m : KeySlotManager} {s : Nat} {lp : String}
    (hinv : Inv m) (hdup : m.is_duplicate_license_plate lp = false)
    (hav : m.is_slot_available s = true) (v : String) (p : Rat)
    (d : Option VehicleData) : Inv (m.placeVehicle s v lp p d) := by
  obtain ⟨hwf, hcoh, hcnt⟩ := hinv
  have hslen : s < m.slots.length := by
    rw [hwf.1]; exact avail_lt_total hav
  refine ⟨⟨?_, ?_⟩, ?_, ?_⟩
  · rw [placeVehicle]
    simpa using hwf.1
  · exact hwf.2
  · intro i hi
    rw [placeVehicle] at hi ⊢
    simp only [List.length_set] at hi
    by_cases his : i = s
    · subst his
      rw [getD_eq_of_getElem? (List.getElem?_set_self hslen)]
      simp [Option.all]
    · have hne : (m.slots.set s (some ⟨s, v, lp, p, d⟩))[i]? = m.slots[i]? :=
        List.getElem?_set_ne (fun hc => his hc.symm)
      rw [List.getD_eq_getElem?_getD, hne, ← List.getD_eq_getElem?_getD]
      exact hcoh i hi
  · intro n
    rw [plateCount_place hwf hav v lp p d n]
    by_cases hn : normalizePlate lp = n
    · subst hn
      have hzero := dup_false_counts hdup
      have h1 : plateCount m (normalizePlate lp) = 0 := by
        rw [plateCount]
        omega
      rw [h1, beq_self_eq_true, Bool.toNat_true]
    · rw [beq_eq_false_iff_ne.mpr hn, Bool.toNat_false]
      simpa using hcnt n

/-- `assign_vehicle` preserves the invariant. -/
theorem inv_assign (m : KeySlotManager) (v lp : String) (p : Rat)
    (d : Option VehicleData) (hinv : Inv m) :
    Inv (m.assign_vehicle v lp p d).2 := by
  rw [assign_vehicle_eq]
  by_cases hdup : m.is_duplicate_license_plate lp = true
  · rw [if_pos hdup]; exact hinv
  · rw [if_neg hdup]
    cases hsel : m.selectedSlot p with
    | none => exact hinv
    | some s =>
      exact inv_place hinv (Bool.eq_false_iff.mpr hdup) (selectedSlot_avail hsel) v p d

/-- `add_vehicle_manually` preserves the invariant. -/
theorem inv_add_manually (m : KeySlotManager) (lp : String) (p : Rat)
    (vid : Option String) (ps : Option Nat) (d : Option VehicleData)
    (hinv : Inv m) : Inv (m.add_vehicle_manually lp p vid ps d).2 := by
  rw [add_vehicle_manually.eq_def]
  by_cases hdup : m.is_duplicate_license_plate lp = true
  · rw [if_pos hdup]; exact hinv
  · rw [if_neg hdup]
    cases ps with
    | none => exact inv_assign m _ lp p d hinv
    | some s =>
      by_cases hav : m.is_slot_available s = true
      · simp only [hav, if_true, assign_to_slot_of_avail _ lp p d hav]
        exact inv_place hinv (Bool.eq_false_iff.mpr hdup) hav _ p d
      · simp only [Bool.eq_false_iff.mpr hav, if_false]
        exact inv_assign m _ lp p d hinv

/-- `mark_vehicle_as_sold` preserves the invariant. -/
theorem inv_mark_sold (m : KeySlotManager) (lp : String) (sp : Option Rat)
    (bi : Option BuyerInfo) (hinv : Inv m) :
    Inv (m.mark_vehicle_as_sold lp sp bi).2 := by
  obtain ⟨hwf, hcoh, hcnt⟩ := hinv
  rw [mark_vehicle_as_sold]
  cases hfind : m.get_vehicle_by_license_plate lp with
  | none => exact ⟨hwf, hcoh, hcnt⟩
  | some b =>
    cases hidx : firstIdxWhere Option.isNone m.sold_vehicles with
    | none => exact ⟨hwf, hcoh, hcnt⟩
    | some idx =>
      dsimp only
      obtain ⟨hmem, hmatch⟩ := findAssignment_some hfind
      obtain ⟨k, hk⟩ := List.getElem?_of_mem hmem
      have hbk : b.slot_number = k := slotCoherent_getElem hcoh hk
      have hbslot : m.slots[b.slot_number]? = some (some b) := by rw [hbk]; exact hk
      obtain ⟨x, hx1, hx2, _⟩ := firstIdxWhere_some hidx
      have hxnone : x = none := Option.isNone_iff_eq_none.mp hx2
      subst hxnone
      refine ⟨⟨by simpa using hwf.1, by simpa using hwf.2⟩, ?_, ?_⟩
      · intro i hi
        simp only [List.length_set] at hi
        by_cases hib : i = b.slot_number
        · subst hib
          have hlt : b.slot_number < m.slots.length :=
            (List.getElem?_eq_some.mp hbslot).1
          rw [getD_eq_of_getElem? (List.getElem?_set_self hlt)]
          rfl
        · have hne : (m.slots.set b.slot_number none)[i]? = m.slots[i]? :=
            List.getElem?_set_ne (fun hc => hib hc.symm)
          rw [List.getD_eq_getElem?_getD, hne, ← List.getD_eq_getElem?_getD]
          exact hcoh i hi
      · intro n
        have hx1' := countP_set_exchange (slotMatches n) m.slots b.slot_number
          none (some b) hbslot
        have hx2' := countP_set_exchange (soldMatches n) m.sold_vehicles idx
          (some ⟨"v" ++ toString (idx + 1), b.vehicle_id, b.license_plate,
            b.purchase_price, b.slot_number, sp, bi⟩) none hx1
        have hcnt' := hcnt n
        rw [plateCount] at hcnt' ⊢
        simp only [slotMatches_none, slotMatches_some, soldMatches_none,
          soldMatches_some, Bool.toNat_false] at hx1' hx2' ⊢
        omega

/-- `complete_vehicle_handover` preserves the invariant. -/
theorem inv_complete (m : KeySlotManager) (lp : String) (hinv : Inv m) :
    Inv (m.complete_vehicle_handover lp).2 := by
  obtain ⟨hwf, hcoh, hcnt⟩ := hinv
  rw [complete_vehicle_handover]
  cases hidx : firstIdxWhere (soldMatches (normalizePlate lp)) m.sold_vehicles with
  | none => exact ⟨hwf, hcoh, hcnt⟩
  | some idx =>
    dsimp only
    obtain ⟨x, hx1, _, _⟩ := firstIdxWhere_some hidx
    refine ⟨⟨by simpa using hwf.1, by simpa using hwf.2⟩, hcoh, ?_⟩
    intro n
    have hx := countP_set_exchange (soldMatches n) m.sold_vehicles idx none x hx1
    have hcnt' := hcnt n
    rw [plateCount] at hcnt' ⊢
    dsimp only
    simp only [soldMatches_none, Bool.toNat_false] at hx
    omega

/-- `release_slot` preserves the invariant. -/
theorem inv_release_slot (m : KeySlotManager) (i : Nat) (hinv : Inv m) :
    Inv (m.release_slot i).2 := by
  obtain ⟨hwf, hcoh, hcnt⟩ := hinv
  rw [release_slot]
  by_cases hlt : i < m.total_slots
  · rw [if_pos hlt]
    cases hget : m.slots.getD i none with
    | none => exact ⟨hwf, hcoh, hcnt⟩
    | some a =>
      dsimp only
      have hilen : i < m.slots.length := by rw [hwf.1]; exact hlt
      have hia : m.slots[i]? = some (some a) := by
        rw [List.getD_eq_getElem?_getD, List.getElem?_eq_getElem hilen] at hget
        simp only [Option.getD_some] at hget
        rw [List.getElem?_eq_getElem hilen, hget]
      refine ⟨⟨by simpa using hwf.1, hwf.2⟩, ?_, ?_⟩
      · intro j hj
        simp only [List.length_set] at hj
        by_cases hji : j = i
        · subst hji
          rw [getD_eq_of_getElem? (List.getElem?_set_self hilen)]
          rfl
        · have hne : (m.slots.set i none)[j]? = m.slots[j]? :=
            List.getElem?_set_ne (fun hc => hji hc.symm)
          rw [List.getD_eq_getElem?_getD, hne, ← List.getD_eq_getElem?_getD]
          exact hcoh j hj
      · intro n
        have hx := countP_set_exchange (slotMatches n) m.slots i none (some a) hia
        have hcnt' := hcnt n
        rw [plateCount] at hcnt' ⊢
        dsimp only
        simp only [slotMatches_none, slotMatches_some, Bool.toNat_false] at hx
        omega
  · rw [if_neg hlt]
    exact ⟨hwf, hcoh, hcnt⟩

/-- `release_by_license_plate` preserves the invariant. -/
theorem inv_release_by_plate (m : KeySlotManager) (lp : String) (hinv : Inv m) :
    Inv (m.release_by_license_plate lp).2 := by
  rw [release_by_license_plate]
  cases hfind : m.get_vehicle_by_license_plate lp with
  | none => exact hinv
  | some a => exact inv_release_slot m a.slot_number hinv

/-- The empty manager satisfies the invariant. -/
theorem inv_init (total_slots : Nat) (strategy : Option (Rat → Nat × Nat)) :
    Inv (mkKeySlotManager total_slots strategy) := by
  refine ⟨⟨by simp [mkKeySlotManager], by simp [mkKeySlotManager]⟩, ?_, ?_⟩
  · intro i hi
    rw [mkKeySlotManager] at hi ⊢
    simp only [List.length_replicate] at hi
    rw [getD_eq_of_getElem? (by rw [List.getElem?_replicate, if_pos hi])]
    rfl
  · intro n
    rw [plateCount, mkKeySlotManager]
    simp [List.countP_replicate, slotMatches, soldMatches]

/-! ### Reachable states and persistence of the duplicate check -/

/-- The inductive invariant holds in every reachable state. -/
theorem inv_of_reachable {m : KeySlotManager} (h : Reachable m) : Inv m := by
  induction h with
  | init t s => exact inv_init t s
  | assign m v lp p d _ ih => exact inv_assign m v lp p d ih
  | addManual m lp p vid ps d _ ih => exact inv_add_manually m lp p vid ps d ih
  | markSold m lp sp bi _ ih => exact inv_mark_sold m lp sp bi ih
  | complete m lp _ ih => exact inv_complete m lp ih
  | releaseSlot m i _ ih => exact inv_release_slot m i ih
  | releaseByPlate m lp _ ih => exact inv_release_by_plate m lp ih

/-- The duplicate check only depends on the normalized plate. -/
theorem is_dup_of_norm_eq {m : KeySlotManager} {lp lp' : String}
    (h : normalizePlate lp' = normalizePlate lp) :
    m.is_duplicate_license_plate lp' = m.is_duplicate_license_plate lp := by
  rw [is_duplicate_license_plate, is_duplicate_license_plate, h]

/-- A duplicate plate is rejected by `assign_vehicle` with the state
untouched. -/
theorem assign_rejects_dup {m : KeySlotManager} {lp : String}
    (h : m.is_duplicate_license_plate lp = true) (v : String) (p : Rat)
    (d : Option VehicleData) : m.assign_vehicle v lp p d = (none, m) := by
  rw [assign_vehicle_eq, if_pos h]

/-- Writing into a free slot keeps every already present plate present. -/
theorem is_dup_place_preserved {m : KeySlotManager} {s : Nat} {lp' : String}
    (hwf : WF m) (hav : m.is_slot_available s = true) (v lp : String) (p : Rat)
    (d : Option VehicleData) (h : m.is_duplicate_license_plate lp' = true) :
    (m.placeVehicle s v lp p d).is_duplicate_license_plate lp' = true := by
  rw [is_duplicate_license_plate] at h ⊢
  rw [placeVehicle]
  dsimp only
  simp only [Bool.or_eq_true] at h ⊢
  rcases h with h | h
  · left
    obtain ⟨o, ho, hpo⟩ := List.any_eq_true.mp h
    obtain ⟨k, hk⟩ := List.getElem?_of_mem ho
    have hks : s ≠ k := by
      intro hc
      subst hc
      rw [avail_getElem? hwf hav] at hk
      simp only [Option.some_inj] at hk
      subst hk
      rw [slotMatches_none] at hpo
      cases hpo
    refine List.any_eq_true.mpr ⟨o, ?_, hpo⟩
    have hset : (m.slots.set s (some ⟨s, v, lp, p, d⟩))[k]? = some o := by
      rw [List.getElem?_set_ne hks]
      exact hk
    exact mem_of_getElem?_eq hset
  · right
    exact h

/-- After an accepted `assign_vehicle`, the assigned plate is a duplicate. -/
theorem assign_plate_present {m : KeySlotManager} {v lp : String} {p : Rat}
    {d : Option VehicleData} {s : Nat} (hwf : WF m)
    (h : (m.assign_vehicle v lp p d).1 = some s) :
    ((m.assign_vehicle v lp p d).2).is_duplicate_license_plate lp = true := by
  rw [assign_vehicle_eq] at h ⊢
  by_cases hdup : m.is_duplicate_license_plate lp = true
  · rw [if_pos hdup] at h
    cases h
  · rw [if_neg hdup] at h ⊢
    cases hsel : m.selectedSlot p with
    | none => rw [hsel] at h; simp at h
    | some s' =>
      have hav := selectedSlot_avail hsel
      have hlen : s' < m.slots.length := by
        rw [hwf.1]; exact avail_lt_total hav
      show (m.placeVehicle s' v lp p d).is_duplicate_license_plate lp = true
      rw [is_duplicate_license_plate, placeVehicle]
      dsimp only
      refine Bool.or_eq_true_iff.mpr (Or.inl (List.any_eq_true.mpr
        ⟨some ⟨s', v, lp, p, d⟩, ?_, ?_⟩))
      · exact mem_of_getElem?_eq (List.getElem?_set_self hlen)
      · rw [slotMatches_some]
        exact beq_self_eq_true (normalizePlate lp)

/-- `assign_vehicle` keeps every already present plate present. -/
theorem is_dup_assign_preserved {m : KeySlotManager} {lp' : String}
    (hwf : WF m) (v lp : String) (p : Rat) (d : Option VehicleData)
    (h : m.is_duplicate_license_plate lp' = true) :
    ((m.assign_vehicle v lp p d).2).is_duplicate_license_plate lp' = true := by
  rw [assign_vehicle_eq]
  by_cases hdup : m.is_duplicate_license_plate lp = true
  · rw [if_pos hdup]
    exact h
  · rw [if_neg hdup]
    cases hsel : m.selectedSlot p with
    | none => exact h
    | some s => exact is_dup_place_preserved hwf (selectedSlot_avail hsel) v lp p d h

/-- Along an assign-only run, a present plate stays present and the
invariant is maintained. -/
theorem dup_persists_assignReach {m₁ m₂ : KeySlotManager} {lp : String}
    (hinv : Inv m₁) (hdup : m₁.is_duplicate_license_plate lp = true)
    (hreach : AssignReach m₁ m₂) :
    m₂.is_duplicate_license_plate lp = true ∧ Inv m₂ := by
  induction hreach with
  | refl => exact ⟨hdup, hinv⟩
  | step m₂ v lp' p d _ ih =>
    obtain ⟨hd, hi⟩ := ih
    exact ⟨is_dup_assign_preserved hi.1 v lp' p d hd, inv_assign m₂ v lp' p d hi⟩

/-! ### Further helper lemmas for the claims -/

/-- A rejecting `selectedSlot` means the table is completely full. -/
theorem selectedSlot_none {m : KeySlotManager} {p : Rat}
    (h : m.selectedSlot p = none) :
    ∀ j, j < m.total_slots → m.is_slot_available j = false := by
  rw [selectedSlot] at h
  cases hstrat : m.assignment_strategy with
  | none =>
    simp only [hstrat] at h
    rw [List.range_eq_range'] at h
    intro j hj
    exact find?_range'_none h j (Nat.zero_le j) (by omega)
  | some strategy =>
    simp only [hstrat] at h
    cases hr : m.get_available_slot_in_range (strategy p).1 (strategy p).2 with
    | some s => simp only [hr] at h; cases h
    | none =>
      simp only [hr] at h
      exact highest_none h

/-- Any free slot makes `selectedSlot` succeed. -/
theorem selectedSlot_isSome {m : KeySlotManager} {p : Rat} {j : Nat}
    (hj : j < m.total_slots) (hav : m.is_slot_available j = true) :
    (m.selectedSlot p).isSome = true := by
  cases h : m.selectedSlot p with
  | none => rw [selectedSlot_none h j hj] at hav; cases hav
  | some s => rfl

/-- A zero count forces the slot-table lookup to fail. -/
theorem findAssignment_eq_none_of_countP {n : List Char}
    {l : List (Option SlotAssignment)} (h : l.countP (slotMatches n) = 0) :
    findAssignment n l = none := by
  cases hf : findAssignment n l with
  | none => rfl
  | some c =>
    obtain ⟨hmem, hmatch⟩ := findAssignment_some hf
    have := List.countP_pos_iff.mpr ⟨some c, hmem, hmatch⟩
    omega

/-- If no cell satisfies `p`, the index scan fails. -/
theorem firstIdxWhere_eq_none {α : Type} {p : α → Bool} {l : List α}
    (h : ∀ x ∈ l, p x = false) : firstIdxWhere p l = none := by
  cases hf : firstIdxWhere p l with
  | none => rfl
  | some i =>
    obtain ⟨x, hx1, hx2, _⟩ := firstIdxWhere_some hf
    rw [h x (mem_of_getElem?_eq hx1)] at hx2
    cases hx2

/-- Counting matching records in the flattened pool equals counting matching
cells in the pool. -/
theorem countP_filterMap_sold (n : List Char) :
    ∀ (l : List (Option SoldVehicle)),
      (l.filterMap (fun x => x)).countP
          (fun r => normalizePlate r.license_plate == n) = l.countP (soldMatches n)
  | [] => by simp
  | none :: l => by
    rw [@List.filterMap_cons_none _ _ (fun x => x) none l rfl, List.countP_cons]
    simp [countP_filterMap_sold n l, soldMatches_none]
  | some s :: l => by
    rw [@List.filterMap_cons_some _ _ (fun x => x) (some s) l s rfl,
      List.countP_cons, List.countP_cons]
    simp only [countP_filterMap_sold n l, soldMatches_some]

/-- An accepted selection determines the whole result of `assign_vehicle`. -/
theorem assign_selected {m : KeySlotManager} {lp : String} {p : Rat} {s : Nat}
    (v : String) (d : Option VehicleData)
    (hdup : m.is_duplicate_license_plate lp = false)
    (hsel : m.selectedSlot p = some s) :
    m.assign_vehicle v lp p d = (some s, m.placeVehicle s v lp p d) := by
  rw [assign_vehicle_eq, if_neg (by simp [hdup])]
  simp only [hsel]

/-- Without a strategy, a selected slot is the first free index from 0. -/
theorem firstfit_selected {m : KeySlotManager} {p : Rat} {s : Nat}
    (hstrat : m.assignment_strategy = none) (hsel : m.selectedSlot p = some s) :
    m.is_slot_available s = true ∧ ∀ j, j < s → m.is_slot_available j = false := by
  rw [selectedSlot] at hsel
  simp only [hstrat] at hsel
  rw [List.range_eq_range'] at hsel
  obtain ⟨h1, _, _, h4⟩ := find?_range'_some hsel
  exact ⟨h1, fun j hj => h4 j (Nat.zero_le j) hj⟩

/-- With a strategy whose range has a free index, the selection is the first
free index of the range. -/
theorem range_first_fit {m : KeySlotManager} {strat : Rat → Nat × Nat} {p : Rat}
    (hstrat : m.assignment_strategy = some strat)
    (hex : ∃ j, (strat p).1 ≤ j ∧ j ≤ (strat p).2 ∧ m.is_slot_available j = true) :
    ∃ s, m.selectedSlot p = some s ∧ (strat p).1 ≤ s ∧ s ≤ (strat p).2 ∧
      m.is_slot_available s = true ∧
      ∀ j, (strat p).1 ≤ j → j < s → m.is_slot_available j = false := by
  obtain ⟨j, hj1, hj2, hj3⟩ := hex
  cases hr : m.get_available_slot_in_range (strat p).1 (strat p).2 with
  | none =>
    exfalso
    rw [in_range_none hr j hj1 hj2 (avail_lt_total hj3)] at hj3
    cases hj3
  | some s =>
    obtain ⟨h1, h2, h3, _, h5⟩ := in_range_some hr
    refine ⟨s, ?_, h2, h3, h1, h5⟩
    rw [selectedSlot]
    simp only [hstrat, hr]

/-- With a strategy whose range is fully occupied but the table not full,
the selection is the highest free index of the whole table. -/
theorem overflow_selected {m : KeySlotManager} {strat : Rat → Nat × Nat} {p : Rat}
    (hstrat : m.assignment_strategy = some strat)
    (hrange : ∀ j, j < m.total_slots → (strat p).1 ≤ j → j ≤ (strat p).2 →
      m.is_slot_available j = false)
    (hex : ∃ j, j < m.total_slots ∧ m.is_slot_available j = true) :
    ∃ s, m.selectedSlot p = some s ∧ m.is_slot_available s = true ∧
      ∀ j, s < j → j < m.total_slots → m.is_slot_available j = false := by
  have hr : m.get_available_slot_in_range (strat p).1 (strat p).2 = none := by
    cases hr : m.get_available_slot_in_range (strat p).1 (strat p).2 with
    | none => rfl
    | some s =>
      exfalso
      obtain ⟨h1, h2, h3, h4, _⟩ := in_range_some hr
      rw [hrange s h4 h2 h3] at h1
      cases h1
  obtain ⟨j, hj1, hj2⟩ := hex
  cases hh : m.get_highest_available_slot with
  | none =>
    exfalso
    rw [highest_none hh j hj1] at hj2
    cases hj2
  | some s =>
    obtain ⟨h1, _, h3⟩ := highest_some hh
    refine ⟨s, ?_, h1, h3⟩
    rw [selectedSlot]
    simp only [hstrat, hr, hh]

/-! ### Concrete states used by the witnesses -/

/-! ### The claims -/

/-- C1: starting from an empty manager, every state reachable by the six
spec-listed operations holds at most one entry per normalized license plate
(uppercase, spaces and hyphens stripped) across the slot table and the
handover pool together; and along any run consisting only of
`assign_vehicle` calls, once an assign of a plate has been accepted, every
later assign of a plate with the same normalization is rejected — no two
accepted assigns share a normalized plate. -/
theorem C1_plate_uniqueness :
    (∀ m : KeySlotManager, Reachable m → PlateAtMostOne m) ∧
    (∀ (m : KeySlotManager) (v lp : String) (p : Rat) (d : Option VehicleData)
      (s : Nat), Reachable m → (m.assign_vehicle v lp p d).1 = some s →
      ∀ m₂ : KeySlotManager, AssignReach (m.assign_vehicle v lp p d).2 m₂ →
      ∀ (v2 lp2 : String) (p2 : Rat) (d2 : Option VehicleData),
        normalizePlate lp2 = normalizePlate lp →
        (m₂.assign_vehicle v2 lp2 p2 d2).1 = none) := by
  constructor
  · exact fun m h => (inv_of_reachable h).2.2
  · intro m v lp p d s hreach hacc m₂ hAR v2 lp2 p2 d2 hnorm
    have hinv := inv_of_reachable hreach
    have hinv1 := inv_assign m v lp p d hinv
    have hdup1 := assign_plate_present hinv.1 hacc
    obtain ⟨hd2, _⟩ := dup_persists_assignReach hinv1 hdup1 hAR
    have hd2' : m₂.is_duplicate_license_plate lp2 = true := by
      rw [is_dup_of_norm_eq hnorm]
      exact hd2
    rw [assign_rejects_dup hd2']

theorem C1_plate_uniqueness_witness :
    PlateAtMostOne ((mkKeySlotManager 2 none).assign_vehicle "V1" "AB 12" 5 none).2 ∧
    ((((mkKeySlotManager 2 none).assign_vehicle "V1" "AB 12" 5 none).2).assign_vehicle
      "V2" "ab-12" 7 none).1 = none :=
  ⟨C1_plate_uniqueness.1 _
      (Reachable.assign (mkKeySlotManager 2 none) "V1" "AB 12" 5 none
        (Reachable.init 2 none)),
   C1_plate_uniqueness.2 (mkKeySlotManager 2 none) "V1" "AB 12" 5 none 0
      (Reachable.init 2 none) (by decide) _
      (AssignReach.refl _) "V2" "ab-12" 7 none (by decide)⟩

/-- C2: `assign_vehicle` follows exactly the documented algorithm: a
duplicate plate is rejected first with the state untouched; with no strategy
the vehicle is placed at the first free index scanning ascending from 0 and
the call rejects exactly when no index is free; with a strategy the vehicle
is placed at the first free index of the strategy's range for the price when
one exists, otherwise at the highest free index of the whole table
(overflow), and the call rejects only when no index at all is free. -/
theorem C2_assign_algorithm (m : KeySlotManager) (v lp : String) (p : Rat)
    (d : Option VehicleData) :
    (m.is_duplicate_license_plate lp = true →
      m.assign_vehicle v lp p d = (none, m)) ∧
    (m.is_duplicate_license_plate lp = false → m.assignment_strategy = none →
      (∀ s, (m.assign_vehicle v lp p d).1 = some s →
        m.assign_vehicle v lp p d = (some s, m.placeVehicle s v lp p d) ∧
        m.is_slot_available s = true ∧
        ∀ j, j < s → m.is_slot_available j = false) ∧
      ((m.assign_vehicle v lp p d).1 = none ↔
        ∀ j, j < m.total_slots → m.is_slot_available j = false)) ∧
    (m.is_duplicate_license_plate lp = false →
      ∀ strat, m.assignment_strategy = some strat →
      ((∃ j, (strat p).1 ≤ j ∧ j ≤ (strat p).2 ∧ m.is_slot_available j = true) →
        ∃ s, m.assign_vehicle v lp p d = (some s, m.placeVehicle s v lp p d) ∧
          (strat p).1 ≤ s ∧ s ≤ (strat p).2 ∧ m.is_slot_available s = true ∧
          ∀ j, (strat p).1 ≤ j → j < s → m.is_slot_available j = false) ∧
      ((∀ j, j < m.total_slots → (strat p).1 ≤ j → j ≤ (strat p).2 →
          m.is_slot_available j = false) →
        (∃ j, j < m.total_slots ∧ m.is_slot_available j = true) →
        ∃ s, m.assign_vehicle v lp p d = (some s, m.placeVehicle s v lp p d) ∧
          m.is_slot_available s = true ∧
          ∀ j, s < j → j < m.total_slots → m.is_slot_available j = false) ∧
      ((∀ j, j < m.total_slots → m.is_slot_available j = false) →
        m.assign_vehicle v lp p d = (none, m))) := by
  refine ⟨fun hdup => assign_rejects_dup hdup v p d, fun hdup hstrat => ⟨?_, ?_⟩,
    fun hdup strat hstrat => ⟨?_, ?_, ?_⟩⟩
  · intro s h
    have hsel : m.selectedSlot p = some s := by
      cases hsel : m.selectedSlot p with
      | none =>
        rw [assign_vehicle_eq, if_neg (by simp [hdup])] at h
        simp only [hsel] at h
        cases h
      | some s' =>
        rw [assign_vehicle_eq, if_neg (by simp [hdup])] at h
        simp only [hsel] at h
        simp only [Option.some_inj] at h
        rw [h]
    obtain ⟨h1, h2⟩ := firstfit_selected hstrat hsel
    exact ⟨assign_selected v d hdup hsel, h1, h2⟩
  · rw [assign_vehicle_eq, if_neg (by simp [hdup])]
    cases hsel : m.selectedSlot p with
    | none => exact ⟨fun _ => selectedSlot_none hsel, fun _ => rfl⟩
    | some s =>
      constructor
      · intro h
        simp at h
      · intro hall
        exfalso
        have hav := selectedSlot_avail hsel
        rw [hall s (avail_lt_total hav)] at hav
        cases hav
  · intro hex
    obtain ⟨s, hsel, h2, h3, h4, h5⟩ := range_first_fit hstrat hex
    exact ⟨s, assign_selected v d hdup hsel, h2, h3, h4, h5⟩
  · intro hrange hex
    obtain ⟨s, hsel, h2, h3⟩ := overflow_selected hstrat hrange hex
    exact ⟨s, assign_selected v d hdup hsel, h2, h3⟩
  · intro hall
    rw [assign_vehicle_eq, if_neg (by simp [hdup])]
    cases hsel : m.selectedSlot p with
    | none => rfl
    | some s =>
      exfalso
      have hav := selectedSlot_avail hsel
      rw [hall s (avail_lt_total hav)] at hav
      cases hav

theorem C2_assign_algorithm_witness :
    (mkKeySlotManager 2 none).assign_vehicle "V" "A" 5 none =
      (some 0, (mkKeySlotManager 2 none).placeVehicle 0 "V" "A" 5 none) ∧
    (mkKeySlotManager 2 none).is_slot_available 0 = true ∧
    (∀ j, j < 0 → (mkKeySlotManager 2 none).is_slot_available j = false) :=
  ((C2_assign_algorithm (mkKeySlotManager 2 none) "V" "A" 5 none).2.1
    (by decide) rfl).1 0 (by decide)

/-- C3: for every price, the default tier strategy's `get_slot_range` returns
`(0, 50)` when `price ≥ 3000`, `(50, 100)` when `1500 ≤ price < 3000` and
`(100, 199)` when `price < 1500`; the boundary prices 3000 and 1500 fall in
the higher tier because the comparisons are `≥`. -/
theorem C3_default_tier_ranges (p : Rat) :
    (3000 ≤ p → defaultPriceStrategy.get_slot_range p = (0, 50)) ∧
    (1500 ≤ p → p < 3000 → defaultPriceStrategy.get_slot_range p = (50, 100)) ∧
    (p < 1500 → defaultPriceStrategy.get_slot_range p = (100, 199)) := by
  rw [PriceBasedSlotStrategy.get_slot_range, defaultPriceStrategy]
  dsimp only
  refine ⟨fun h => ?_, fun h1 h2 => ?_, fun h => ?_⟩
  · rw [if_pos h]
  · rw [if_neg (not_le.mpr h2), if_pos h1]
  · rw [if_neg (not_le.mpr (h.trans (by norm_num))), if_neg (not_le.mpr h)]

theorem C3_default_tier_ranges_witness :
    defaultPriceStrategy.get_slot_range 3000 = (0, 50) ∧
    defaultPriceStrategy.get_slot_range 1500 = (50, 100) ∧
    defaultPriceStrategy.get_slot_range 1499 = (100, 199) :=
  ⟨(C3_default_tier_ranges 3000).1 (by norm_num),
   (C3_default_tier_ranges 1500).2.1 (by norm_num) (by norm_num),
   (C3_default_tier_ranges 1499).2.2 (by norm_num)⟩

/-- C4: in a reachable state where a plate occupies slot `s` and the pool
has a free index, `mark_vehicle_as_sold` succeeds and atomically moves the
vehicle: the first free pool index (ascending) receives a record whose
`original_slot` is `s` and whose id, plate and price are copied from the
assignment, slot `s` becomes empty in the same step, an immediately
following lookup of the plate in the table returns none, and the pending
list contains exactly one record matching the plate, all matches carrying
`original_slot = s`. -/
theorem C4_mark_sold_moves (m : KeySlotManager) (lp : String) (sp : Option Rat)
    (bi : Option BuyerInfo) (s : Nat) (a : SlotAssignment)
    (hreach : Reachable m)
    (hslot : m.slots[s]? = some (some a))
    (hplate : normalizePlate a.license_plate = normalizePlate lp)
    (hpool : ∃ j : Nat, m.sold_vehicles[j]? = some none) :
    (m.mark_vehicle_as_sold lp sp bi).1 = true ∧
    (∃ idx : Nat, m.sold_vehicles[idx]? = some none ∧
      (∀ (j : Nat) (y : Option SoldVehicle), j < idx →
        m.sold_vehicles[j]? = some y → y ≠ none) ∧
      (m.mark_vehicle_as_sold lp sp bi).2.sold_vehicles[idx]? =
        some (some (⟨"v" ++ toString (idx + 1), a.vehicle_id, a.license_plate,
          a.purchase_price, s, sp, bi⟩ : SoldVehicle))) ∧
    (m.mark_vehicle_as_sold lp sp bi).2.slots[s]? = some none ∧
    (m.mark_vehicle_as_sold lp sp bi).2.get_vehicle_by_license_plate lp = none ∧
    (m.mark_vehicle_as_sold lp sp bi).2.get_sold_vehicles.countP
      (fun r => normalizePlate r.license_plate == normalizePlate lp) = 1 ∧
    (∀ r ∈ (m.mark_vehicle_as_sold lp sp bi).2.get_sold_vehicles,
      (normalizePlate r.license_plate == normalizePlate lp) = true →
      r.original_slot = s) := by
  obtain ⟨hwf, hcoh, hcnt⟩ := inv_of_reachable hreach
  have hmatch_a : slotMatches (normalizePlate lp) (some a) = true := by
    rw [slotMatches_some]
    exact beq_iff_eq.mpr hplate
  have hsome := findAssignment_isSome (mem_of_getElem?_eq hslot) hmatch_a
  have hcnt' := hcnt (normalizePlate lp)
  rw [plateCount] at hcnt'
  have hslots_pos : 0 < m.slots.countP (slotMatches (normalizePlate lp)) :=
    countP_pos_of_getElem? hslot hmatch_a
  cases hfind : m.get_vehicle_by_license_plate lp with
  | none =>
    rw [get_vehicle_by_license_plate] at hfind
    rw [hfind] at hsome
    cases hsome
  | some b =>
    obtain ⟨hmem_b, hmatch_b⟩ :=
      findAssignment_some
        (show findAssignment (normalizePlate lp) m.slots = some b from hfind)
    obtain ⟨k, hk⟩ := List.getElem?_of_mem hmem_b
    have hbk : b.slot_number = k := slotCoherent_getElem hcoh hk
    have hks : k = s := by
      by_contra hne
      rcases Nat.lt_or_ge k s with hlt | hge
      · have := two_le_countP (slotMatches (normalizePlate lp)) m.slots k s
          (some b) (some a) hlt hk hslot hmatch_b hmatch_a
        omega
      · have hgt : s < k := Nat.lt_of_le_of_ne hge (fun hc => hne hc.symm)
        have := two_le_countP (slotMatches (normalizePlate lp)) m.slots s k
          (some a) (some b) hgt hslot hk hmatch_a hmatch_b
        omega
    have hba : b = a := by
      have hk' : m.slots[s]? = some (some b) := hks ▸ hk
      rw [hslot] at hk'
      exact (Option.some_inj.mp (Option.some_inj.mp hk')).symm
    subst hba
    obtain ⟨j0, hj0⟩ := hpool
    have hpoolsome :=
      @firstIdxWhere_isSome _ Option.isNone m.sold_vehicles none
        (mem_of_getElem?_eq hj0) rfl
    cases hidx : firstIdxWhere Option.isNone m.sold_vehicles with
    | none =>
      rw [hidx] at hpoolsome
      cases hpoolsome
    | some idx =>
      obtain ⟨x, hx1, hx2, hx3⟩ := firstIdxWhere_some hidx
      have hxnone : x = none := Option.isNone_iff_eq_none.mp hx2
      subst hxnone
      have hbs : b.slot_number = s := by rw [hbk, hks]
      have hmark : m.mark_vehicle_as_sold lp sp bi =
          (true, ⟨m.total_slots, m.assignment_strategy,
            m.slots.set s none,
            m.sold_vehicles.set idx (some ⟨"v" ++ toString (idx + 1),
              b.vehicle_id, b.license_plate, b.purchase_price, s, sp, bi⟩)⟩) := by
        rw [mark_vehicle_as_sold, hfind, hidx]
        dsimp only
        rw [hbs]
      have hslen : s < m.slots.length := (List.getElem?_eq_some.mp hslot).1
      have hilen : idx < m.sold_vehicles.length := (List.getElem?_eq_some.mp hx1).1
      have hsold_zero : m.sold_vehicles.countP (soldMatches (normalizePlate lp)) = 0 := by
        omega
      have hslots_one : m.slots.countP (slotMatches (normalizePlate lp)) = 1 := by
        omega
      have hxchg := countP_set_exchange (slotMatches (normalizePlate lp))
        m.slots s none (some b) hslot
      rw [slotMatches_none, Bool.toNat_false, hmatch_a, Bool.toNat_true] at hxchg
      have hmatch_sv : soldMatches (normalizePlate lp)
          (some ⟨"v" ++ toString (idx + 1), b.vehicle_id, b.license_plate,
            b.purchase_price, s, sp, bi⟩) = true := by
        rw [soldMatches_some]
        exact beq_iff_eq.mpr hplate
      have hxchg2 := countP_set_exchange (soldMatches (normalizePlate lp))
        m.sold_vehicles idx
        (some ⟨"v" ++ toString (idx + 1), b.vehicle_id, b.license_plate,
          b.purchase_price, s, sp, bi⟩) none hx1
      rw [soldMatches_none, Bool.toNat_false, hmatch_sv, Bool.toNat_true] at hxchg2
      refine ⟨by rw [hmark], ⟨idx, hx1, ?_, ?_⟩, ?_, ?_, ?_, ?_⟩
      · intro j y hj hy hynone
        subst hynone
        have := hx3 j hj none hy
        cases this
      · rw [hmark]
        dsimp only
        exact List.getElem?_set_self hilen
      · rw [hmark]
        dsimp only
        exact List.getElem?_set_self hslen
      · rw [hmark]
        rw [get_vehicle_by_license_plate]
        dsimp only
        exact findAssignment_eq_none_of_countP (by omega)
      · rw [hmark]
        rw [get_sold_vehicles]
        dsimp only
        rw [countP_filterMap_sold]
        omega
      · intro r hr hmr
        rw [hmark] at hr
        rw [get_sold_vehicles] at hr
        dsimp only at hr
        obtain ⟨o, ho, hor⟩ := List.mem_filterMap.mp hr
        have hor' : o = some r := hor
        subst hor'
        rcases List.mem_or_eq_of_mem_set ho with hmem | heq
        · exfalso
          have hz := List.countP_eq_zero.mp hsold_zero (some r) hmem
          rw [soldMatches_some] at hz
          exact hz hmr
        · have : r = ⟨"v" ++ toString (idx + 1), b.vehicle_id, b.license_plate,
              b.purchase_price, s, sp, bi⟩ := Option.some_inj.mp heq
          rw [this]

theorem C4_mark_sold_moves_witness :
    (wmC4.mark_vehicle_as_sold "K7" none none).1 = true ∧
    (wmC4.mark_vehicle_as_sold "K7" none none).2.get_vehicle_by_license_plate
      "K7" = none ∧
    (wmC4.mark_vehicle_as_sold "K7" none none).2.get_sold_vehicles.countP
      (fun r => normalizePlate r.license_plate == normalizePlate "K7") = 1 :=
  have h := C4_mark_sold_moves wmC4 "K7" none none 0 ⟨0, "V1", "K7", 5, none⟩
    (Reachable.assign (mkKeySlotManager 2 none) "V1" "K7" 5 none
      (Reachable.init 2 none))
    (by decide) (by decide) ⟨0, by decide⟩
  ⟨h.1, h.2.2.2.1, h.2.2.2.2.1⟩

/-- C5: whenever `assign_vehicle` returns a rejection (`None`) or
`mark_vehicle_as_sold` returns `False` — duplicate plate, full table, plate
not found or full pool — the post-state is exactly the pre-state: every slot
and every pool entry is untouched. -/
theorem C5_rejection_leaves_state (m : KeySlotManager) (v lp : String) (p : Rat)
    (d : Option VehicleData) (sp : Option Rat) (bi : Option BuyerInfo) :
    ((m.assign_vehicle v lp p d).1 = none → (m.assign_vehicle v lp p d).2 = m) ∧
    ((m.mark_vehicle_as_sold lp sp bi).1 = false →
      (m.mark_vehicle_as_sold lp sp bi).2 = m) := by
  constructor
  · intro h
    rw [assign_vehicle_eq] at h ⊢
    by_cases hdup : m.is_duplicate_license_plate lp = true
    · rw [if_pos hdup]
    · rw [if_neg hdup] at h ⊢
      cases hsel : m.selectedSlot p with
      | none => rfl
      | some s => rw [hsel] at h; simp at h
  · intro h
    rw [mark_vehicle_as_sold] at h ⊢
    cases hf : m.get_vehicle_by_license_plate lp with
    | none => rfl
    | some b =>
      simp only [hf] at h ⊢
      cases hidx : firstIdxWhere Option.isNone m.sold_vehicles with
      | none => rfl
      | some idx => rw [hidx] at h; simp at h

theorem C5_rejection_leaves_state_witness :
    (wmFull.assign_vehicle "W" "B" 1 none).2 = wmFull ∧
    (wmFull.mark_vehicle_as_sold "ZZ" none none).2 = wmFull :=
  ⟨(C5_rejection_leaves_state wmFull "W" "B" 1 none none none).1 (by decide),
   (C5_rejection_leaves_state wmFull "W" "B" 1 none none none).2 (by decide)⟩

/-- C7: with a non-duplicate plate, `assign_vehicle` rejects (table full) if
and only if no index in `[0, total_slots)` is free; with any free slot, the
call succeeds. -/
theorem C7_table_full_iff (m : KeySlotManager) (v lp : String) (p : Rat)
    (d : Option VehicleData) (hdup : m.is_duplicate_license_plate lp = false) :
    ((m.assign_vehicle v lp p d).1 = none ↔
      ∀ j, j < m.total_slots → m.is_slot_available j = false) := by
  rw [assign_vehicle_eq, if_neg (by simp [hdup])]
  cases hsel : m.selectedSlot p with
  | none =>
    exact ⟨fun _ => selectedSlot_none hsel, fun _ => rfl⟩
  | some s =>
    constructor
    · intro h
      simp at h
    · intro hall
      exfalso
      have hav := selectedSlot_avail hsel
      rw [hall s (avail_lt_total hav)] at hav
      cases hav

theorem C7_table_full_iff_witness :
    ((wmFull.assign_vehicle "W" "B" 1 none).1 = none ↔
      ∀ j, j < wmFull.total_slots → wmFull.is_slot_available j = false) :=
  C7_table_full_iff wmFull "W" "B" 1 none (by decide)

/-- C6: when every index of the strategy range for the price is occupied but
some slot of the table is free, `assign_vehicle` with a non-duplicate plate
succeeds, and the index it places at is the highest free index of the whole
table (every higher index below `total_slots` is occupied). -/
theorem C6_overflow_to_highest (m : KeySlotManager) (strat : Rat → Nat × Nat)
    (v lp : String) (p : Rat) (d : Option VehicleData)
    (hstrat : m.assignment_strategy = some strat)
    (hdup : m.is_duplicate_license_plate lp = false)
    (hrange : ∀ j, j < m.total_slots → (strat p).1 ≤ j → j ≤ (strat p).2 →
      m.is_slot_available j = false)
    (hfree : ∃ j, j < m.total_slots ∧ m.is_slot_available j = true) :
    ∃ s, m.assign_vehicle v lp p d = (some s, m.placeVehicle s v lp p d) ∧
      m.is_slot_available s = true ∧
      ∀ j, s < j → j < m.total_slots → m.is_slot_available j = false := by
  obtain ⟨s, hsel, h2, h3⟩ := overflow_selected hstrat hrange hfree
  exact ⟨s, assign_selected v d hdup hsel, h2, h3⟩

theorem C6_overflow_to_highest_witness :
    ∃ s, wmC6.assign_vehicle "W" "B" 5 none =
        (some s, wmC6.placeVehicle s "W" "B" 5 none) ∧
      wmC6.is_slot_available s = true ∧
      ∀ j, s < j → j < wmC6.total_slots → wmC6.is_slot_available j = false :=
  C6_overflow_to_highest wmC6 (fun _ => (0, 0)) "W" "B" 5 none rfl
    (by decide) (by decide) ⟨1, by decide, by decide⟩

/-- C9: `add_vehicle_manually` with a requested preferred slot places the
vehicle at exactly that index when it is free and the plate is fresh; when
the preferred index is unavailable (occupied or out of range) it falls
through to the automatic `assign_vehicle` policy instead of failing; and a
missing vehicle id is synthesized as `MANUAL-<plate>`. -/
theorem C9_manual_assignment (m : KeySlotManager) (lp : String) (p : Rat)
    (vid : Option String) (ps : Nat) (d : Option VehicleData) :
    (m.is_duplicate_license_plate lp = false → m.is_slot_available ps = true →
      m.add_vehicle_manually lp p vid (some ps) d =
        (some ps, m.placeVehicle ps (vid.getD ("MANUAL-" ++ lp)) lp p d)) ∧
    (m.is_slot_available ps = false →
      m.add_vehicle_manually lp p vid (some ps) d =
        m.assign_vehicle (vid.getD ("MANUAL-" ++ lp)) lp p d) ∧
    (m.is_duplicate_license_plate lp = false → m.is_slot_available ps = true →
      WF m → vid = none →
      (m.add_vehicle_manually lp p vid (some ps) d).2.slots.getD ps none =
        some ⟨ps, "MANUAL-" ++ lp, lp, p, d⟩) := by
  have hm : (match vid with
      | none => "MANUAL-" ++ lp
      | some v => v) = vid.getD ("MANUAL-" ++ lp) := by
    cases vid <;> rfl
  have hplaced : m.is_duplicate_license_plate lp = false →
      m.is_slot_available ps = true →
      m.add_vehicle_manually lp p vid (some ps) d =
        (some ps, m.placeVehicle ps (vid.getD ("MANUAL-" ++ lp)) lp p d) := by
    intro hdup hav
    rw [add_vehicle_manually.eq_def, if_neg (by simp [hdup])]
    dsimp only
    rw [hm, if_pos hav,
      assign_to_slot_of_avail (vid.getD ("MANUAL-" ++ lp)) lp p d hav]
  refine ⟨hplaced, fun hnav => ?_, fun hdup hav hwf hvn => ?_⟩
  · rw [add_vehicle_manually.eq_def]
    by_cases hdup : m.is_duplicate_license_plate lp = true
    · rw [if_pos hdup, assign_rejects_dup hdup]
    · rw [if_neg hdup]
      dsimp only
      rw [hm, if_neg (by simp [hnav])]
  · rw [hplaced hdup hav]
    have hlen : ps < m.slots.length := by
      rw [hwf.1]
      exact avail_lt_total hav
    subst hvn
    rw [placeVehicle]
    dsimp only
    rw [getD_eq_of_getElem? (List.getElem?_set_self hlen)]
    rfl

theorem C9_manual_assignment_witness :
    (mkKeySlotManager 2 none).add_vehicle_manually "B" 7 none (some 1) none =
      (some 1, (mkKeySlotManager 2 none).placeVehicle 1 "MANUAL-B" "B" 7 none) ∧
    wmFull.add_vehicle_manually "B" 7 (some "VX") (some 0) none =
      wmFull.assign_vehicle "VX" "B" 7 none ∧
    ((mkKeySlotManager 2 none).add_vehicle_manually "B" 7 none (some 1) none).2.slots.getD
        1 none = some ⟨1, "MANUAL-B", "B", 7, none⟩ :=
  ⟨(C9_manual_assignment (mkKeySlotManager 2 none) "B" 7 none 1 none).1
      (by decide) (by decide),
   (C9_manual_assignment wmFull "B" 7 (some "VX") 0 none).2.1 (by decide),
   (C9_manual_assignment (mkKeySlotManager 2 none) "B" 7 none 1 none).2.2
      (by decide) (by decide) ⟨by decide, by decide⟩ rfl⟩

/-- C10: `complete_vehicle_handover` never touches the slot table or the
capacity, returns `false` leaving the whole state unchanged when no pool
record matches, and on success clears exactly the single matching pool index,
leaving every other pool entry in place. -/
theorem C10_complete_handover_frame (m : KeySlotManager) (lp : String) :
    (m.complete_vehicle_handover lp).2.slots = m.slots ∧
    (m.complete_vehicle_handover lp).2.total_slots = m.total_slots ∧
    ((m.complete_vehicle_handover lp).1 = false →
      (m.complete_vehicle_handover lp).2 = m) ∧
    ((∀ o ∈ m.sold_vehicles, soldMatches (normalizePlate lp) o = false) →
      m.complete_vehicle_handover lp = (false, m)) ∧
    ((m.complete_vehicle_handover lp).1 = true →
      ∃ idx r, m.sold_vehicles[idx]? = some (some r) ∧
        (normalizePlate r.license_plate == normalizePlate lp) = true ∧
        (m.complete_vehicle_handover lp).2.sold_vehicles =
          m.sold_vehicles.set idx none ∧
        ∀ j, j ≠ idx →
          (m.complete_vehicle_handover lp).2.sold_vehicles[j]? =
            m.sold_vehicles[j]?) := by
  rw [complete_vehicle_handover]
  cases hidx : firstIdxWhere (soldMatches (normalizePlate lp)) m.sold_vehicles with
  | none =>
    refine ⟨rfl, rfl, fun _ => rfl, fun _ => rfl, fun h => ?_⟩
    simp at h
  | some idx =>
    obtain ⟨x, hx1, hx2, _⟩ := firstIdxWhere_some hidx
    cases x with
    | none => rw [soldMatches_none] at hx2; cases hx2
    | some r =>
      refine ⟨rfl, rfl, fun h => ?_, fun hall => ?_, fun _ => ?_⟩
      · simp at h
      · rw [hall (some r) (mem_of_getElem?_eq hx1)] at hx2
        cases hx2
      · refine ⟨idx, r, hx1, by rwa [soldMatches_some] at hx2, rfl, fun j hj => ?_⟩
        exact List.getElem?_set_ne (fun hc => hj hc.symm)

theorem C10_complete_handover_frame_witness :
    wmSold.complete_vehicle_handover "XX" = (false, wmSold) ∧
    (∃ idx r, wmSold.sold_vehicles[idx]? = some (some r) ∧
      (normalizePlate r.license_plate == normalizePlate "K0") = true ∧
      (wmSold.complete_vehicle_handover "K0").2.sold_vehicles =
        wmSold.sold_vehicles.set idx none ∧
      ∀ j, j ≠ idx →
        (wmSold.complete_vehicle_handover "K0").2.sold_vehicles[j]? =
          wmSold.sold_vehicles[j]?) :=
  ⟨(C10_complete_handover_frame wmSold "XX").2.2.2.1 (by decide),
   (C10_complete_handover_frame wmSold "K0").2.2.2.2 (by decide)⟩

/-! ### Sequences of sale events (claim C8) -/

/-- Clearing the slot that held one plate keeps every other plate findable
in the table. -/
theorem any_preserved_set_none {l : List (Option SlotAssignment)} {s : Nat}
    {b : SlotAssignment} {n n' : List Char}
    (hs : l[s]? = some (some b))
    (hb : normalizePlate b.license_plate = n)
    (hne : n' ≠ n)
    (h : l.any (slotMatches n') = true) :
    (l.set s none).any (slotMatches n') = true := by
  obtain ⟨o, ho, hpo⟩ := List.any_eq_true.mp h
  obtain ⟨k, hk⟩ := List.getElem?_of_mem ho
  have hks : s ≠ k := by
    intro hc
    subst hc
    rw [hs] at hk
    have ho' : o = some b := Option.some_inj.mp hk.symm
    subst ho'
    rw [slotMatches_some, hb] at hpo
    exact hne (beq_iff_eq.mp hpo).symm
  have hk' : (l.set s none)[k]? = some o := by
    rw [List.getElem?_set_ne hks]
    exact hk
  exact List.any_eq_true.mpr ⟨o, mem_of_getElem?_eq hk', hpo⟩

/-- Running `mark_vehicle_as_sold` over distinct plates that are all present
in the table, with `k` free pool cells, succeeds exactly `min len k` times
and then fails for the remaining calls. -/
theorem markSoldSeq_spec :
    ∀ (plates : List String) (m : KeySlotManager) (k : Nat),
      Inv m →
      m.sold_vehicles.countP (fun o => o.isNone) = k →
      (plates.map normalizePlate).Nodup →
      (∀ q ∈ plates, m.slots.any (slotMatches (normalizePlate q)) = true) →
      (markSoldSeq m plates).1 =
        List.replicate (min plates.length k) true ++
          List.replicate (plates.length - k) false := by
  intro plates
  induction plates with
  | nil => intro m k _ _ _ _; simp [markSoldSeq]
  | cons q rest ih =>
    intro m k hinv hk hnodup hpres
    obtain ⟨hwf, hcoh, hcnt⟩ := hinv
    have hq := hpres q (List.mem_cons_self q rest)
    obtain ⟨o, ho, hpo⟩ := List.any_eq_true.mp hq
    have hsome := findAssignment_isSome ho hpo
    cases hfind : m.get_vehicle_by_license_plate q with
    | none =>
      rw [get_vehicle_by_license_plate] at hfind
      rw [hfind] at hsome
      cases hsome
    | some b =>
      obtain ⟨hmem_b, hmatch_b⟩ :=
        findAssignment_some
          (show findAssignment (normalizePlate q) m.slots = some b from hfind)
      obtain ⟨kb, hkb⟩ := List.getElem?_of_mem hmem_b
      have hbk : b.slot_number = kb := slotCoherent_getElem hcoh hkb
      have hbslot : m.slots[b.slot_number]? = some (some b) := by
        rw [hbk]
        exact hkb
      have hnodup' : (rest.map normalizePlate).Nodup := by
        rw [List.map_cons] at hnodup
        exact List.Nodup.of_cons hnodup
      cases k with
      | zero =>
        have hidx : firstIdxWhere Option.isNone m.sold_vehicles = none := by
          apply firstIdxWhere_eq_none
          intro x hx
          exact Bool.eq_false_iff.mpr (List.countP_eq_zero.mp hk x hx)
        have hmark : m.mark_vehicle_as_sold q none none = (false, m) := by
          rw [mark_vehicle_as_sold, hfind, hidx]
        have ihr := ih m 0 ⟨hwf, hcoh, hcnt⟩ hk hnodup'
          (fun q' hq' => hpres q' (List.mem_cons_of_mem q hq'))
        rw [markSoldSeq, hmark]
        dsimp only
        rw [ihr]
        simp [List.replicate_succ]
      | succ k' =>
        have hkpos : 0 < m.sold_vehicles.countP (fun o => o.isNone) := by omega
        obtain ⟨x, hx, hpx⟩ := List.countP_pos_iff.mp hkpos
        have hpoolsome := firstIdxWhere_isSome hx hpx
        cases hidx : firstIdxWhere Option.isNone m.sold_vehicles with
        | none =>
          rw [hidx] at hpoolsome
          cases hpoolsome
        | some idx =>
          obtain ⟨y, hy1, hy2, _⟩ := firstIdxWhere_some hidx
          have hynone : y = none := Option.isNone_iff_eq_none.mp hy2
          subst hynone
          have hmark : m.mark_vehicle_as_sold q none none =
              (true, ⟨m.total_slots, m.assignment_strategy,
                m.slots.set b.slot_number none,
                m.sold_vehicles.set idx (some ⟨"v" ++ toString (idx + 1),
                  b.vehicle_id, b.license_plate, b.purchase_price,
                  b.slot_number, none, none⟩)⟩) := by
            rw [mark_vehicle_as_sold, hfind, hidx]
          have hinv' := inv_mark_sold m q none none ⟨hwf, hcoh, hcnt⟩
          rw [hmark] at hinv'
          have hxchg := countP_set_exchange (fun o => Option.isNone o)
            m.sold_vehicles idx
            (some ⟨"v" ++ toString (idx + 1), b.vehicle_id, b.license_plate,
              b.purchase_price, b.slot_number, none, none⟩) none hy1
          simp only [Option.isNone_none, Option.isNone_some, Bool.toNat_true,
            Bool.toNat_false] at hxchg
          have hpres' : ∀ q' ∈ rest,
              (m.slots.set b.slot_number none).any
                (slotMatches (normalizePlate q')) = true := by
            intro q' hq'
            have hneq : normalizePlate q' ≠ normalizePlate q := by
              intro hc
              rw [List.map_cons] at hnodup
              exact (List.nodup_cons.mp hnodup).1
                (hc ▸ List.mem_map_of_mem normalizePlate hq')
            exact any_preserved_set_none hbslot
              (beq_iff_eq.mp (by rwa [slotMatches_some] at hmatch_b)) hneq
              (hpres q' (List.mem_cons_of_mem q hq'))
          have ihr := ih _ k' hinv' (by dsimp only; omega) hnodup' hpres'
          rw [markSoldSeq, hmark]
          dsimp only
          rw [ihr]
          simp [List.replicate_succ, Nat.succ_min_succ, Nat.succ_sub_succ]

/-- C8 (amended): starting with an empty handover pool of size 10 and eleven
distinct plates all present in the slot table, eleven consecutive
`mark_vehicle_as_sold` calls succeed exactly ten times and the eleventh
fails (pool full) — provided no intervening `complete_vehicle_handover`
restores capacity; a completion does restore capacity (see the
counterexample to the original wording). -/
theorem C8_pool_capacity (m : KeySlotManager) (plates : List String)
    (hwf : WF m) (hcoh : slotCoherent m) (hcnt : PlateAtMostOne m)
    (hpool : m.sold_vehicles = List.replicate 10 none)
    (hlen : plates.length = 11)
    (hnodup : (plates.map normalizePlate).Nodup)
    (hpres : ∀ q ∈ plates, m.slots.any (slotMatches (normalizePlate q)) = true) :
    (markSoldSeq m plates).1 = List.replicate 10 true ++ [false] := by
  have hk : m.sold_vehicles.countP (fun o => o.isNone) = 10 := by
    rw [hpool]
    simp [List.countP_replicate]
  have h := markSoldSeq_spec plates m 10 ⟨hwf, hcoh, hcnt⟩ hk hnodup hpres
  rw [hlen] at h
  simpa using h

theorem C8_pool_capacity_witness :
    (markSoldSeq wmC8 wmC8Plates).1 = List.replicate 10 true ++ [false] :=
  C8_pool_capacity wmC8 wmC8Plates (by decide) (by decide)
    (plateAtMostOne_of_nodup (by decide)) (by decide) (by decide) (by decide)
    (by decide)

/-- C8 counterexample to the original wording: after ten successful sales
filling the pool, an intervening `complete_vehicle_handover` restores
capacity and the eleventh `mark_vehicle_as_sold` of a fresh plate succeeds
rather than failing with pool-full. -/
theorem C8_regardless_counterexample :
    (markSoldSeq wmC8 (wmC8Plates.take 10)).1 = List.replicate 10 true ∧
    (((markSoldSeq wmC8 (wmC8Plates.take 10)).2.complete_vehicle_handover
        "P0").2.mark_vehicle_as_sold "PA" none none).1 = true := by
  decide

end KeySlotManager

end KeyMgmt
